import Mathlib

/-!
# Verification of the task-based evaluation / automatic-differentiation engine

Shallow embedding of the PLUMED-derived task engine:
`MultiValue` (per-task scratch state, from `src/tools/MultiValue.h`),
`MatrixProductBase` (matrix-product row/element tasks, from
`src/adjmat/MatrixProductBase.cpp`), `OuterProduct` (from
`src/matrixtools/OuterProduct.cpp`) and the derivative-transfer loop of
`MultiColvarTemplate` (from `src/colvar/MultiColvarTemplate.h`).

C++ `double` values are modelled as exact rationals (`ℚ`): none of the
properties verified here depend on floating-point rounding.  `std::vector`
is modelled as `List`, with `List.set` / `List.getD` for element access;
an out-of-range C++ write is undefined behaviour, in the model it is a
no-op, and every theorem that needs an access to land carries the
corresponding in-range hypothesis.
-/

namespace Plumed

/-- The numerical-zero tolerance `epsilon`.  Modelled from the spec:
the constant `epsilon` (machine epsilon of `double`, `2^-52`) used by the
zero-skip rule; its definition lives in a tools header that is not part of
the sources at hand. -/
def epsilon : ℚ := mkRat 1 (2 ^ 52)

/-- `abs(val)` on a `double`, as an executable rational function. -/
def qabs (q : ℚ) : ℚ := if q < 0 then -q else q

/-- Per-task scratch state, mirroring the fields of `PLMD::MultiValue`
(`src/tools/MultiValue.h`, lines 33-139).  The reusable temporary buffers
(`tmp_atoms`, `tmp_atom_der`, `tmp_atom_virial`, `tmp_vectors`) are not
modelled: the claims treated here pass the leaf results in explicitly.

The last three fields (`nmatrix_indices`, `matrix_indices`,
`matrix_rerun`) are Modelled from the spec: the matrix-index-stash channel
(`getNumberOfMatrixIndices` / `setNumberOfMatrixIndices` /
`getMatrixIndices`, spec 4.2) and the matrix-rerun flag used by
`MatrixProductBase.cpp` belong to a `MultiValue` revision whose header is
not among the sources; they are modelled as one index list and one count
per stash position, exactly as the spec describes them. -/
structure MultiValue where
  task_index : ℕ := 0
  task2_index : ℕ := 0
  values : List ℚ := []
  nderivatives : ℕ := 0
  derivatives : List ℚ := []
  hasderiv : List Bool := []
  nactive : List ℕ := []
  active_list : List ℕ := []
  atLeastOneSet : Bool := false
  vector_call : Bool := false
  nindices : ℕ := 0
  nsplit : ℕ := 0
  matrix_force_stash : List ℚ := []
  matrix_row_nderivatives : ℕ := 0
  matrix_row_derivative_indices : List ℕ := []
  indices : List ℕ := []
  nmatrix_indices : List ℕ := []
  matrix_indices : List (List ℕ) := []
  matrix_rerun : Bool := false
  deriving Repr, DecidableEq

namespace MultiValue

/-- `MultiValue::resize(nvals,nder)`.  Modelled from the spec:
`resize(numberOfValues, numberOfDerivatives)` allocates the dense value
and derivative buffers, the has-derivative matrix and the active-index
lists (spec 4.2); the implementation is in `MultiValue.cpp`, which is not
among the sources.  `nstash` sizes the modelled matrix-index-stash
channels. -/
def resized (nvals nders nstash stashlen : ℕ) : MultiValue where
  values := List.replicate nvals 0
  nderivatives := nders
  derivatives := List.replicate (nvals * nders) 0
  hasderiv := List.replicate (nvals * nders) false
  nactive := List.replicate nvals 0
  active_list := List.replicate (nvals * nders) 0
  nmatrix_indices := List.replicate nstash 0
  matrix_indices := List.replicate nstash (List.replicate stashlen 0)

/-- `MultiValue::get` (MultiValue.h line 152). -/
def get (mv : MultiValue) (ival : ℕ) : ℚ := mv.values.getD ival 0

/-- `MultiValue::setValue` (MultiValue.h line 158). -/
def setValue (mv : MultiValue) (ival : ℕ) (val : ℚ) : MultiValue :=
  { mv with values := mv.values.set ival val }

/-- `MultiValue::addValue` (MultiValue.h line 164). -/
def addValue (mv : MultiValue) (ival : ℕ) (val : ℚ) : MultiValue :=
  { mv with values := mv.values.set ival (mv.values.getD ival 0 + val) }

/-- `MultiValue::addDerivative` (MultiValue.h line 170):
`hasderiv[nderivatives*ival+jder]=true; derivatives[nderivatives*ival+jder] += der`. -/
def addDerivative (mv : MultiValue) (ival jder : ℕ) (der : ℚ) : MultiValue :=
  { mv with
    atLeastOneSet := true
    hasderiv := mv.hasderiv.set (mv.nderivatives * ival + jder) true
    derivatives := mv.derivatives.set (mv.nderivatives * ival + jder)
      (mv.derivatives.getD (mv.nderivatives * ival + jder) 0 + der) }

/-- `MultiValue::setDerivative` (MultiValue.h line 176). -/
def setDerivative (mv : MultiValue) (ival jder : ℕ) (der : ℚ) : MultiValue :=
  { mv with
    atLeastOneSet := true
    hasderiv := mv.hasderiv.set (mv.nderivatives * ival + jder) true
    derivatives := mv.derivatives.set (mv.nderivatives * ival + jder) der }

/-- `MultiValue::getDerivative` (MultiValue.h line 183). -/
def getDerivative (mv : MultiValue) (ival jder : ℕ) : ℚ :=
  mv.derivatives.getD (mv.nderivatives * ival + jder) 0

/-- `MultiValue::updateIndex` (MultiValue.h lines 188-199):
`if( hasderiv[nderivatives*ival+jder] ) { active_list[nderivatives*ival+nactive[ival]]=jder; nactive[ival]++; }`.
Note that the C++ body appends whenever the derivative has been written,
with no check that `jder` is already present (the commented-out
`DNDEBUG` block is not compiled). -/
def updateIndex (mv : MultiValue) (ival jder : ℕ) : MultiValue :=
  if mv.hasderiv.getD (mv.nderivatives * ival + jder) false then
    { mv with
      active_list := mv.active_list.set
        (mv.nderivatives * ival + mv.nactive.getD ival 0) jder
      nactive := mv.nactive.set ival (mv.nactive.getD ival 0 + 1) }
  else mv

/-- `MultiValue::getNumberActive` (MultiValue.h line 202). -/
def getNumberActive (mv : MultiValue) (ival : ℕ) : ℕ := mv.nactive.getD ival 0

/-- `MultiValue::getActiveIndex` (MultiValue.h line 208):
`active_list[nderivatives*ival+ind]`. -/
def getActiveIndex (mv : MultiValue) (ival ind : ℕ) : ℕ :=
  mv.active_list.getD (mv.nderivatives * ival + ind) 0

/-- The active-derivative-index list of value `ival`: the entries
`getActiveIndex ival k` for `k < getNumberActive ival`, in order. -/
def activeList (mv : MultiValue) (ival : ℕ) : List ℕ :=
  (List.range (mv.getNumberActive ival)).map (fun k => mv.getActiveIndex ival k)

/-- `MultiValue::setSplitIndex` (MultiValue.h line 214). -/
def setSplitIndex (mv : MultiValue) (nat : ℕ) : MultiValue := { mv with nsplit := nat }

/-- `MultiValue::getSplitIndex` (MultiValue.h line 219). -/
def getSplitIndex (mv : MultiValue) : ℕ := mv.nsplit

/-- `MultiValue::setNumberOfIndices` (MultiValue.h line 224). -/
def setNumberOfIndices (mv : MultiValue) (nat : ℕ) : MultiValue := { mv with nindices := nat }

/-- `MultiValue::getNumberOfIndices` (MultiValue.h line 229). -/
def getNumberOfIndices (mv : MultiValue) : ℕ := mv.nindices

/-- `MultiValue::inVectorCall` (MultiValue.h line 235):
`matrix_force_stash.size()>0 && vector_call`. -/
def inVectorCall (mv : MultiValue) : Bool :=
  decide (mv.matrix_force_stash.length > 0) && mv.vector_call

/-- `MultiValue::getNumberOfMatrixIndices`.  Modelled from the spec: the
count of matrix-index-stash entries for stash position `nmat` (spec 4.2);
the implementing header revision is not among the sources. -/
def getNumberOfMatrixIndices (mv : MultiValue) (nmat : ℕ) : ℕ :=
  mv.nmatrix_indices.getD nmat 0

/-- `MultiValue::setNumberOfMatrixIndices`.  Modelled from the spec
(spec 4.2). -/
def setNumberOfMatrixIndices (mv : MultiValue) (nmat n : ℕ) : MultiValue :=
  { mv with nmatrix_indices := mv.nmatrix_indices.set nmat n }

/-- Write one entry of the matrix-index stash of channel `nmat`
(`matrix_indices[pos] = v` on the vector returned by
`MultiValue::getMatrixIndices`).  Modelled from the spec (spec 4.2). -/
def setMatrixIndex (mv : MultiValue) (nmat pos v : ℕ) : MultiValue :=
  { mv with matrix_indices :=
      mv.matrix_indices.set nmat ((mv.matrix_indices.getD nmat []).set pos v) }

/-- Read one entry of the matrix-index stash of channel `nmat`.
Modelled from the spec (spec 4.2). -/
def getMatrixIndex (mv : MultiValue) (nmat pos : ℕ) : ℕ :=
  (mv.matrix_indices.getD nmat []).getD pos 0

/-- `MultiValue::inMatrixRerun`.  Modelled from the spec: true while
matrix elements are being recomputed during force gathering; the flag is
part of a `MultiValue` revision not among the sources, so it is kept as
abstract state. -/
def inMatrixRerun (mv : MultiValue) : Bool := mv.matrix_rerun

/-- `MultiValue::clear(ival)`.  Modelled from the spec: `clear(v)` resets
the scratch state for value `v` to the state it had right after `resize`
(spec 4.2) - value zeroed, the derivative row of `v` zeroed, its
has-derivative row cleared and its active list emptied; the implementation
is in `MultiValue.cpp`, which is not among the sources. -/
def clear (mv : MultiValue) (ival : ℕ) : MultiValue :=
  { mv with
    values := mv.values.set ival 0
    derivatives := (List.range mv.nderivatives).foldl
      (fun l j => l.set (mv.nderivatives * ival + j) 0) mv.derivatives
    hasderiv := (List.range mv.nderivatives).foldl
      (fun l j => l.set (mv.nderivatives * ival + j) false) mv.hasderiv
    nactive := mv.nactive.set ival 0 }

end MultiValue

/-- The debug assertion of `MultiValue::get` (MultiValue.h line 153):
`plumed_dbg_assert( ival<=values.size() )`. -/
def get_dbg (mv : MultiValue) (ival : ℕ) : Bool := decide (ival ≤ mv.values.length)

/-- The debug assertion of `MultiValue::setValue` (MultiValue.h line 159):
`plumed_dbg_assert( ival<=values.size() )`. -/
def setValue_dbg (mv : MultiValue) (ival : ℕ) : Bool := decide (ival ≤ mv.values.length)

/-- The debug assertion of `MultiValue::addValue` (MultiValue.h line 165):
`plumed_dbg_assert( ival<=values.size() )`. -/
def addValue_dbg (mv : MultiValue) (ival : ℕ) : Bool := decide (ival ≤ mv.values.length)

/-- The debug assertion of `MultiValue::addDerivative` (MultiValue.h line 171):
`plumed_dbg_assert( ival<=values.size() && jder<nderivatives )`. -/
def addDerivative_dbg (mv : MultiValue) (ival jder : ℕ) : Bool :=
  decide (ival ≤ mv.values.length) && decide (jder < mv.nderivatives)

/-- The debug assertion of `MultiValue::setDerivative` (MultiValue.h line 177):
`plumed_dbg_assert( ival<=values.size() && jder<nderivatives )`. -/
def setDerivative_dbg (mv : MultiValue) (ival jder : ℕ) : Bool :=
  decide (ival ≤ mv.values.length) && decide (jder < mv.nderivatives)

/-- The debug assertion of `MultiValue::getDerivative` (MultiValue.h line 184):
`plumed_dbg_assert( ival<values.size() && jder<nderivatives )`. -/
def getDerivative_dbg (mv : MultiValue) (ival jder : ℕ) : Bool :=
  decide (ival < mv.values.length) && decide (jder < mv.nderivatives)

/-- The debug assertion of `MultiValue::updateIndex` (MultiValue.h line 190):
`plumed_dbg_assert( ival<values.size() && jder<nderivatives )`. -/
def updateIndex_dbg (mv : MultiValue) (ival jder : ℕ) : Bool :=
  decide (ival < mv.values.length) && decide (jder < mv.nderivatives)

/-! ## Operation sequences on a task context

`MatrixProductBase::performTask` and `MultiColvarTemplate::performTask`
drive a `MultiValue` through straight-line sequences of `setValue`,
`addDerivative` and `updateIndex` calls; the claims about the
active-index lists quantify over such sequences, so the calls are
reified as a small operation type. -/

/-- One `MultiValue` call in a straight-line call sequence. -/
inductive MVOp where
  | setVal (ival : ℕ) (val : ℚ)
  | addDer (ival jder : ℕ) (der : ℚ)
  | updIdx (ival jder : ℕ)
  deriving Repr, DecidableEq

/-- Execute one reified call. -/
def applyOp (mv : MultiValue) : MVOp → MultiValue
  | .setVal i v => mv.setValue i v
  | .addDer i j d => mv.addDerivative i j d
  | .updIdx i j => mv.updateIndex i j

/-- Execute a call sequence left to right. -/
def applyOps (mv : MultiValue) (ops : List MVOp) : MultiValue := ops.foldl applyOp mv

/-- The `(value, derivative-index)` pair of an `updateIndex` call. -/
def MVOp.updPair : MVOp → Option (ℕ × ℕ)
  | .updIdx i j => some (i, j)
  | _ => none

/-- The ordered list of `(value, derivative-index)` pairs passed to
`updateIndex` by a call sequence. -/
def updPairs (ops : List MVOp) : List (ℕ × ℕ) := ops.filterMap MVOp.updPair

theorem applyOps_nil (mv : MultiValue) : applyOps mv [] = mv := rfl

theorem applyOps_cons (mv : MultiValue) (op : MVOp) (ops : List MVOp) :
    applyOps mv (op :: ops) = applyOps (applyOp mv op) ops := rfl

theorem updPairs_nil : updPairs [] = [] := rfl

theorem updPairs_cons (op : MVOp) (ops : List MVOp) :
    updPairs (op :: ops) = (MVOp.updPair op).toList ++ updPairs ops := by
  cases op <;> simp [updPairs, List.filterMap_cons, MVOp.updPair]

/-! ## Small list helpers -/

theorem getD_set_self {α : Type} (l : List α) {i : ℕ} (a d : α) (h : i < l.length) :
    (l.set i a).getD i d = a := by
  simp [List.getD_eq_getElem?_getD, List.getElem?_set_self, h]

theorem getD_set_ne {α : Type} (l : List α) {i j : ℕ} (a d : α) (h : i ≠ j) :
    (l.set i a).getD j d = l.getD j d := by
  simp [List.getD_eq_getElem?_getD, List.getElem?_set_ne h]

theorem getD_set_true (l : List Bool) {p q : ℕ} (h : l.getD q false = true) :
    (l.set p true).getD q false = true := by
  by_cases hpq : p = q
  · subst hpq
    by_cases hl : p < l.length
    · exact getD_set_self l true false hl
    · rw [List.set_eq_of_length_le (Nat.le_of_not_lt hl)]; exact h
  · rw [getD_set_ne l true false hpq]; exact h

theorem nodup_length_le (l : List ℕ) (n : ℕ) (hl : ∀ x ∈ l, x < n) (hn : l.Nodup) :
    l.length ≤ n := by
  have hsub : l.toFinset ⊆ Finset.range n := by
    intro x hx
    exact Finset.mem_range.mpr (hl x (List.mem_toFinset.mp hx))
  have := Finset.card_le_card hsub
  rwa [List.toFinset_card_of_nodup hn, Finset.card_range] at this

theorem mulAdd_left_cancel {a q1 r1 q2 r2 : ℕ} (h1 : r1 < a) (h2 : r2 < a)
    (h : a * q1 + r1 = a * q2 + r2) : q1 = q2 ∧ r1 = r2 := by
  have ha : 0 < a := Nat.lt_of_le_of_lt (Nat.zero_le r1) h1
  have hq : q1 = q2 := by
    have e1 : (a * q1 + r1) / a = q1 := by
      rw [Nat.mul_add_div ha, Nat.div_eq_of_lt h1, Nat.add_zero]
    have e2 : (a * q2 + r2) / a = q2 := by
      rw [Nat.mul_add_div ha, Nat.div_eq_of_lt h2, Nat.add_zero]
    rw [← e1, h, e2]
  refine ⟨hq, ?_⟩
  subst hq
  exact Nat.add_left_cancel h

/-! ## Effect of the individual calls on the active-index lists -/

theorem updateIndex_hasderiv (mv : MultiValue) (v j : ℕ) :
    (mv.updateIndex v j).hasderiv = mv.hasderiv := by
  unfold MultiValue.updateIndex; split <;> rfl

theorem updateIndex_nderivatives (mv : MultiValue) (v j : ℕ) :
    (mv.updateIndex v j).nderivatives = mv.nderivatives := by
  unfold MultiValue.updateIndex; split <;> rfl

theorem updateIndex_derivatives (mv : MultiValue) (v j : ℕ) :
    (mv.updateIndex v j).derivatives = mv.derivatives := by
  unfold MultiValue.updateIndex; split <;> rfl

theorem updateIndex_values (mv : MultiValue) (v j : ℕ) :
    (mv.updateIndex v j).values = mv.values := by
  unfold MultiValue.updateIndex; split <;> rfl

theorem addDerivative_activeList (mv : MultiValue) (v j : ℕ) (d : ℚ) (w : ℕ) :
    (mv.addDerivative v j d).activeList w = mv.activeList w := rfl

theorem setValue_activeList (mv : MultiValue) (v : ℕ) (x : ℚ) (w : ℕ) :
    (mv.setValue v x).activeList w = mv.activeList w := rfl

theorem activeList_length (mv : MultiValue) (v : ℕ) :
    (mv.activeList v).length = mv.nactive.getD v 0 := by
  simp [MultiValue.activeList, MultiValue.getNumberActive]

/-- When the derivative at `(v,j)` has been written, `updateIndex v j`
appends `j` to the active list of `v` - whether or not `j` is already
present. -/
theorem updateIndex_activeList_append (mv : MultiValue) (v j : ℕ)
    (htrue : mv.hasderiv.getD (mv.nderivatives * v + j) false = true)
    (hvlt : v < mv.nactive.length)
    (hpos : mv.nderivatives * v + mv.nactive.getD v 0 < mv.active_list.length) :
    (mv.updateIndex v j).activeList v = mv.activeList v ++ [j] := by
  unfold MultiValue.updateIndex
  rw [if_pos htrue]
  simp only [MultiValue.activeList, MultiValue.getNumberActive, MultiValue.getActiveIndex]
  rw [getD_set_self mv.nactive _ 0 hvlt]
  rw [List.range_succ, List.map_append]
  congr 1
  · apply List.map_congr_left
    intro k hk
    have hk' : k < mv.nactive.getD v 0 := List.mem_range.mp hk
    exact getD_set_ne mv.active_list j 0
      (fun he => absurd (Nat.add_left_cancel he) (Nat.ne_of_gt hk'))
  · simp only [List.map_cons, List.map_nil]
    rw [getD_set_self mv.active_list j 0 hpos]

/-- `updateIndex v j` leaves the active list of every other value
untouched (given the in-range side conditions that hold throughout the
engine). -/
theorem updateIndex_activeList_other (mv : MultiValue) (v j w : ℕ) (hw : w ≠ v)
    (hbw : mv.nactive.getD w 0 ≤ mv.nderivatives)
    (hbv : mv.nactive.getD v 0 < mv.nderivatives) :
    (mv.updateIndex v j).activeList w = mv.activeList w := by
  unfold MultiValue.updateIndex
  split
  · simp only [MultiValue.activeList, MultiValue.getNumberActive, MultiValue.getActiveIndex]
    rw [getD_set_ne mv.nactive _ 0 (fun he => hw he.symm)]
    apply List.map_congr_left
    intro k hk
    have hk' : k < mv.nactive.getD w 0 := List.mem_range.mp hk
    apply getD_set_ne mv.active_list j 0
    intro he
    exact hw (mulAdd_left_cancel hbv (Nat.lt_of_lt_of_le hk' hbw) he).1.symm
  · rfl

/-! ## The active-list invariant over call sequences -/

/-- Buffer sizes of a task context as set up by `resize(nvals, nders)`. -/
structure MVWF (nvals nders : ℕ) (mv : MultiValue) : Prop where
  hnd : mv.nderivatives = nders
  hvals : mv.values.length = nvals
  hder : mv.derivatives.length = nvals * nders
  hhas : mv.hasderiv.length = nvals * nders
  hnact : mv.nactive.length = nvals
  hact : mv.active_list.length = nvals * nders

/-- The derivative indices passed to `updateIndex` for value `v`, in call
order, extracted from a list of call pairs. -/
def updFor (done : List (ℕ × ℕ)) (v : ℕ) : List ℕ :=
  (done.filter (fun p => p.1 == v)).map Prod.snd

theorem mem_updFor {done : List (ℕ × ℕ)} {v j : ℕ} :
    j ∈ updFor done v ↔ (v, j) ∈ done := by
  simp only [updFor, List.mem_map, List.mem_filter, beq_iff_eq]
  constructor
  · rintro ⟨⟨a, b⟩, ⟨hin, he⟩, hs⟩
    simp only at he hs
    rw [← he, ← hs]
    exact hin
  · intro h
    exact ⟨(v, j), ⟨h, rfl⟩, rfl⟩

theorem updFor_nodup {done : List (ℕ × ℕ)} (h : done.Nodup) (v : ℕ) :
    (updFor done v).Nodup := by
  apply List.Nodup.map_on _ (h.filter _)
  rintro ⟨a, b⟩ ha ⟨c, d⟩ hc he
  have ha' := (List.mem_filter.mp ha).2
  have hc' := (List.mem_filter.mp hc).2
  simp only [beq_iff_eq] at ha' hc'
  simp only at he
  rw [ha', hc', he]

theorem updFor_append (d1 d2 : List (ℕ × ℕ)) (v : ℕ) :
    updFor (d1 ++ d2) v = updFor d1 v ++ updFor d2 v := by
  simp [updFor, List.filter_append]

theorem updFor_single_self (v j : ℕ) : updFor [(v, j)] v = [j] := by
  simp [updFor]

theorem updFor_single_other {v w : ℕ} (j : ℕ) (h : w ≠ v) : updFor [(v, j)] w = [] := by
  simp [updFor, fun he => h (Eq.symm he), Ne.symm h]

/-- The invariant tied to a call sequence: each value's active list is a
sublist of the indices passed to `updateIndex` for it, and every entry
has its has-derivative flag set. -/
structure MVInv (nvals nders : ℕ) (done : List (ℕ × ℕ)) (mv : MultiValue) : Prop where
  wf : MVWF nvals nders mv
  hsub : ∀ v, List.Sublist (mv.activeList v) (updFor done v)
  hhd : ∀ v, ∀ j ∈ mv.activeList v, mv.hasderiv.getD (nders * v + j) false = true

theorem MVInv.setVal {nvals nders : ℕ} {done : List (ℕ × ℕ)} {mv : MultiValue}
    (inv : MVInv nvals nders done mv) (i : ℕ) (x : ℚ) :
    MVInv nvals nders done (mv.setValue i x) := by
  obtain ⟨⟨h1, h2, h3, h4, h5, h6⟩, hsub, hhd⟩ := inv
  refine ⟨⟨h1, ?_, h3, h4, h5, h6⟩, hsub, hhd⟩
  simpa [MultiValue.setValue] using h2

theorem MVInv.addDer {nvals nders : ℕ} {done : List (ℕ × ℕ)} {mv : MultiValue}
    (inv : MVInv nvals nders done mv) (i j : ℕ) (d : ℚ) :
    MVInv nvals nders done (mv.addDerivative i j d) := by
  obtain ⟨⟨h1, h2, h3, h4, h5, h6⟩, hsub, hhd⟩ := inv
  refine ⟨⟨h1, h2, ?_, ?_, h5, h6⟩, hsub, ?_⟩
  · simpa [MultiValue.addDerivative] using h3
  · simpa [MultiValue.addDerivative] using h4
  · intro v j' hj'
    exact getD_set_true _ (hhd v j' hj')

theorem MVInv.updIdx {nvals nders : ℕ} {done : List (ℕ × ℕ)} {mv : MultiValue}
    (inv : MVInv nvals nders done mv) (i j : ℕ)
    (hi : i < nvals) (hj : j < nders)
    (hdone : done.Nodup) (hnew : (i, j) ∉ done)
    (hboundd : ∀ p ∈ done, p.1 < nvals ∧ p.2 < nders) :
    MVInv nvals nders (done ++ [(i, j)]) (mv.updateIndex i j) := by
  obtain ⟨⟨h1, h2, h3, h4, h5, h6⟩, hsub, hhd⟩ := inv
  have hNodupAct : ∀ v, (mv.activeList v).Nodup :=
    fun v => (updFor_nodup hdone v).sublist (hsub v)
  have hmem : ∀ v j', j' ∈ mv.activeList v → (v, j') ∈ done :=
    fun v j' h => mem_updFor.mp ((hsub v).subset h)
  have hbAct : ∀ v, ∀ x ∈ mv.activeList v, x < nders :=
    fun v x hx => (hboundd _ (hmem v x hx)).2
  have hlenAct : ∀ v, mv.nactive.getD v 0 ≤ nders := by
    intro v
    rw [← activeList_length]
    exact nodup_length_le _ _ (hbAct v) (hNodupAct v)
  have hsubApp : ∀ v, List.Sublist (updFor done v) (updFor (done ++ [(i, j)]) v) := by
    intro v
    rw [updFor_append]
    exact List.sublist_append_left _ _
  by_cases hcond : mv.hasderiv.getD (mv.nderivatives * i + j) false = true
  · have hjnot : j ∉ mv.activeList i := fun h => hnew (hmem i j h)
    have hlt : mv.nactive.getD i 0 < nders := by
      have hnodup2 : (mv.activeList i ++ [j]).Nodup := by
        rw [List.nodup_append]
        refine ⟨hNodupAct i, List.nodup_singleton j, ?_⟩
        intro x hx hx2
        rw [List.mem_singleton.mp hx2] at hx
        exact hjnot hx
      have hb2 : ∀ x ∈ mv.activeList i ++ [j], x < nders := by
        intro x hx
        rcases List.mem_append.mp hx with h | h
        · exact hbAct i x h
        · rw [List.mem_singleton.mp h]; exact hj
      have := nodup_length_le _ _ hb2 hnodup2
      rw [List.length_append, List.length_singleton, activeList_length] at this
      omega
    have hpos : mv.nderivatives * i + mv.nactive.getD i 0 < mv.active_list.length := by
      rw [h1, h6]
      have e1 : nders * i + mv.nactive.getD i 0 < nders * (i + 1) := by
        rw [Nat.mul_succ]; omega
      have e2 : nders * (i + 1) ≤ nders * nvals := Nat.mul_le_mul_left nders hi
      rw [Nat.mul_comm nvals nders]
      omega
    have happ := updateIndex_activeList_append mv i j hcond (h5 ▸ hi) hpos
    have hothers : ∀ v, v ≠ i → (mv.updateIndex i j).activeList v = mv.activeList v := by
      intro v hv
      exact updateIndex_activeList_other mv i j v hv (h1 ▸ hlenAct v) (h1 ▸ hlt)
    refine ⟨⟨?_, ?_, ?_, ?_, ?_, ?_⟩, ?_, ?_⟩
    · rw [updateIndex_nderivatives]; exact h1
    · rw [updateIndex_values]; exact h2
    · rw [updateIndex_derivatives]; exact h3
    · rw [updateIndex_hasderiv]; exact h4
    · unfold MultiValue.updateIndex
      rw [if_pos hcond]
      simpa using h5
    · unfold MultiValue.updateIndex
      rw [if_pos hcond]
      simpa using h6
    · intro v
      by_cases hv : v = i
      · subst hv
        rw [happ, updFor_append, updFor_single_self]
        exact List.Sublist.append (hsub v) (List.Sublist.refl [j])
      · rw [hothers v hv, updFor_append, updFor_single_other j hv]
        simpa using hsub v
    · intro v j' hj'
      rw [updateIndex_hasderiv]
      by_cases hv : v = i
      · subst hv
        rw [happ] at hj'
        rcases List.mem_append.mp hj' with h | h
        · exact hhd v j' h
        · rw [List.mem_singleton.mp h, ← h1]
          exact hcond
      · rw [hothers v hv] at hj'
        exact hhd v j' hj'
  · have heq : mv.updateIndex i j = mv := by
      unfold MultiValue.updateIndex
      rw [if_neg hcond]
    rw [heq]
    refine ⟨⟨h1, h2, h3, h4, h5, h6⟩, ?_, hhd⟩
    intro v
    exact (hsub v).trans (hsubApp v)

/-- Running a call sequence from a state satisfying the invariant
preserves it, provided `updateIndex` is never called twice with the same
`(value, index)` pair and all calls stay in the declared bounds. -/
theorem MVInv.run {nvals nders : ℕ} (ops : List MVOp) (done : List (ℕ × ℕ)) (mv : MultiValue)
    (inv : MVInv nvals nders done mv)
    (hbound : ∀ p ∈ done ++ updPairs ops, p.1 < nvals ∧ p.2 < nders)
    (hnodup : (done ++ updPairs ops).Nodup) :
    MVInv nvals nders (done ++ updPairs ops) (applyOps mv ops) := by
  induction ops generalizing done mv with
  | nil => simpa [updPairs_nil] using inv
  | cons op rest ih =>
    cases op with
    | setVal i x =>
      rw [applyOps_cons]
      have h' : updPairs (MVOp.setVal i x :: rest) = updPairs rest := by
        simp [updPairs_cons, MVOp.updPair]
      rw [h'] at hbound hnodup ⊢
      exact ih done (mv.setValue i x) (inv.setVal i x) hbound hnodup
    | addDer i j d =>
      rw [applyOps_cons]
      have h' : updPairs (MVOp.addDer i j d :: rest) = updPairs rest := by
        simp [updPairs_cons, MVOp.updPair]
      rw [h'] at hbound hnodup ⊢
      exact ih done (mv.addDerivative i j d) (inv.addDer i j d) hbound hnodup
    | updIdx i j =>
      rw [applyOps_cons]
      have h' : updPairs (MVOp.updIdx i j :: rest) = (i, j) :: updPairs rest := by
        simp [updPairs_cons, MVOp.updPair]
      rw [h'] at hbound hnodup
      have hsplit := hnodup
      rw [show done ++ (i, j) :: updPairs rest = (done ++ [(i, j)]) ++ updPairs rest by simp] at hsplit
      have hij : i < nvals ∧ j < nders := hbound (i, j) (by simp)
      have hdone : done.Nodup := ((List.nodup_append.mp hnodup).1)
      have hnew : (i, j) ∉ done := by
        intro hmem
        have hdisj := (List.nodup_append.mp hnodup).2.2
        exact hdisj hmem (by simp)
      have hbd : ∀ p ∈ done, p.1 < nvals ∧ p.2 < nders := by
        intro p hp
        exact hbound p (List.mem_append.mpr (Or.inl hp))
      have step := inv.updIdx i j hij.1 hij.2 hdone hnew hbd
      have hbound' : ∀ p ∈ (done ++ [(i, j)]) ++ updPairs rest, p.1 < nvals ∧ p.2 < nders := by
        intro p hp
        apply hbound
        rcases List.mem_append.mp hp with h | h
        · rcases List.mem_append.mp h with h2 | h2
          · exact List.mem_append.mpr (Or.inl h2)
          · refine List.mem_append.mpr (Or.inr ?_)
            rw [List.mem_singleton.mp h2]
            simp
        · exact List.mem_append.mpr (Or.inr (List.mem_cons_of_mem _ h))
      have := ih (done ++ [(i, j)]) (mv.updateIndex i j) step hbound' hsplit
      rw [h', show done ++ (i, j) :: updPairs rest = (done ++ [(i, j)]) ++ updPairs rest by simp]
      exact this

/-- The contribution one reified call makes to the dense derivative
buffer slot `p` (row stride `nders`). -/
def derContrib (nders p : ℕ) : MVOp → ℚ
  | .addDer v j d => if nders * v + j = p then d else 0
  | _ => 0

/-- Running a call sequence adds to each dense derivative slot exactly
the sum of the `addDerivative` contributions aimed at it. -/
theorem applyOps_derivatives_getD (ops : List MVOp) (mv : MultiValue) (p : ℕ)
    (hp : p < mv.derivatives.length) :
    (applyOps mv ops).derivatives.getD p 0 =
      mv.derivatives.getD p 0 + (ops.map (derContrib mv.nderivatives p)).sum := by
  induction ops generalizing mv with
  | nil => simp [applyOps_nil]
  | cons op rest ih =>
    rw [applyOps_cons]
    cases op with
    | setVal i x =>
      simp only [applyOp]
      rw [ih (mv.setValue i x) hp]
      simp [derContrib, MultiValue.setValue]
    | updIdx i j =>
      have hp' : p < (mv.updateIndex i j).derivatives.length := by
        rw [updateIndex_derivatives]; exact hp
      simp only [applyOp]
      rw [ih (mv.updateIndex i j) hp', updateIndex_derivatives, updateIndex_nderivatives]
      simp [derContrib]
    | addDer i j d =>
      have hlen : (mv.addDerivative i j d).derivatives.length = mv.derivatives.length := by
        simp [MultiValue.addDerivative]
      simp only [applyOp]
      rw [ih (mv.addDerivative i j d) (hlen ▸ hp)]
      have hnd : (mv.addDerivative i j d).nderivatives = mv.nderivatives := rfl
      rw [hnd]
      by_cases hpos : mv.nderivatives * i + j = p
      · have : (mv.addDerivative i j d).derivatives.getD p 0 =
            mv.derivatives.getD p 0 + d := by
          show (mv.derivatives.set (mv.nderivatives * i + j) _).getD p 0 = _
          rw [hpos]
          exact getD_set_self mv.derivatives _ 0 hp
        rw [this]
        simp [derContrib, hpos, add_assoc]
      · have : (mv.addDerivative i j d).derivatives.getD p 0 =
            mv.derivatives.getD p 0 := by
          show (mv.derivatives.set (mv.nderivatives * i + j) _).getD p 0 = _
          exact getD_set_ne mv.derivatives _ 0 hpos
        rw [this]
        simp [derContrib, hpos]

theorem getD_replicate_zero (n i : ℕ) : (List.replicate n (0 : ℕ)).getD i 0 = 0 := by
  rcases Nat.lt_or_ge i n with h | h
  · rw [List.getD_eq_getElem?_getD, List.getElem?_replicate]
    simp [h]
  · rw [List.getD_eq_getElem?_getD, List.getElem?_replicate]
    simp [Nat.not_lt.mpr h]

/-- A freshly resized task context satisfies the invariant with an empty
call history. -/
theorem MVInv_resized (nvals nders nstash stashlen : ℕ) :
    MVInv nvals nders [] (MultiValue.resized nvals nders nstash stashlen) := by
  have hact : ∀ v, (MultiValue.resized nvals nders nstash stashlen).activeList v = [] := by
    intro v
    simp [MultiValue.activeList, MultiValue.getNumberActive, MultiValue.resized,
      getD_replicate_zero]
  refine ⟨⟨rfl, ?_, ?_, ?_, ?_, ?_⟩, ?_, ?_⟩
  · simp [MultiValue.resized]
  · simp [MultiValue.resized]
  · simp [MultiValue.resized]
  · simp [MultiValue.resized]
  · simp [MultiValue.resized]
  · intro v
    rw [hact v]
    exact List.nil_sublist _
  · intro v j hj
    rw [hact v] at hj
    exact absurd hj (List.not_mem_nil j)

/-! ## Claims C3 and C4 -/

/-- **C3, counterexample.**  The claim states that `updateIndex(v,j)`
appends `j` only when it is not already present, so that active-index
lists never contain duplicates.  On the code this is false: after
`addDerivative(0,0,1)` followed by two `updateIndex(0,0)` calls on a
context resized to 1 value and 2 derivatives, the active list of value 0
is `[0, 0]` - a duplicate. -/
theorem C3_counterexample :
    ((((MultiValue.resized 1 2 0 0).addDerivative 0 0 1).updateIndex 0 0).updateIndex 0 0).activeList 0
        = [0, 0] ∧
    ¬ (((((MultiValue.resized 1 2 0 0).addDerivative 0 0 1).updateIndex 0 0).updateIndex 0 0).activeList 0).Nodup := by
  constructor
  · decide
  · decide

/-- **C3 (amended).**  `updateIndex(v,j)` appends `j` to `v`'s active
list whenever `hasDerivative[v][j]` is true, with *no* membership test;
consequently, after any sequence of `setValue` / `addDerivative` /
`updateIndex` calls on a freshly resized context in which `updateIndex`
is never invoked twice with the same `(value, index)` pair (the
caller contract asserted by the code's commented-out debug check) and
all calls respect the declared bounds, every value's active-index list
contains no duplicates and only indices whose derivative flag is set. -/
theorem C3_activeList_nodup (nvals nders : ℕ) (ops : List MVOp)
    (hbound : ∀ p ∈ updPairs ops, p.1 < nvals ∧ p.2 < nders)
    (hnodup : (updPairs ops).Nodup) :
    (∀ v, (((applyOps (MultiValue.resized nvals nders 0 0) ops)).activeList v).Nodup ∧
      ∀ j ∈ ((applyOps (MultiValue.resized nvals nders 0 0) ops)).activeList v,
        ((applyOps (MultiValue.resized nvals nders 0 0) ops)).hasderiv.getD (nders * v + j) false
          = true) ∧
    (∀ mv : MultiValue, ∀ v j,
      mv.hasderiv.getD (mv.nderivatives * v + j) false = true →
      v < mv.nactive.length →
      mv.nderivatives * v + mv.nactive.getD v 0 < mv.active_list.length →
      (mv.updateIndex v j).activeList v = mv.activeList v ++ [j]) := by
  constructor
  · have hrun := @MVInv.run nvals nders ops []
      (MultiValue.resized nvals nders 0 0) (MVInv_resized nvals nders 0 0)
      (by simpa using hbound) (by simpa using hnodup)
    rw [List.nil_append] at hrun
    intro v
    refine ⟨?_, hrun.hhd v⟩
    exact (updFor_nodup hnodup v).sublist (hrun.hsub v)
  · intro mv v j h1 h2 h3
    exact updateIndex_activeList_append mv v j h1 h2 h3

/-- Witness for C3: a concrete three-call sequence within bounds and
with distinct `updateIndex` pairs. -/
theorem C3_activeList_nodup_witness :
    (∀ p ∈ updPairs [MVOp.addDer 0 0 1, MVOp.updIdx 0 0, MVOp.updIdx 0 1], p.1 < 1 ∧ p.2 < 2) ∧
    (updPairs [MVOp.addDer 0 0 1, MVOp.updIdx 0 0, MVOp.updIdx 0 1]).Nodup ∧
    ((∀ v, (((applyOps (MultiValue.resized 1 2 0 0)
        [MVOp.addDer 0 0 1, MVOp.updIdx 0 0, MVOp.updIdx 0 1])).activeList v).Nodup ∧
      ∀ j ∈ ((applyOps (MultiValue.resized 1 2 0 0)
          [MVOp.addDer 0 0 1, MVOp.updIdx 0 0, MVOp.updIdx 0 1])).activeList v,
        ((applyOps (MultiValue.resized 1 2 0 0)
            [MVOp.addDer 0 0 1, MVOp.updIdx 0 0, MVOp.updIdx 0 1])).hasderiv.getD (2 * v + j) false
          = true) ∧
    (∀ mv : MultiValue, ∀ v j,
      mv.hasderiv.getD (mv.nderivatives * v + j) false = true →
      v < mv.nactive.length →
      mv.nderivatives * v + mv.nactive.getD v 0 < mv.active_list.length →
      (mv.updateIndex v j).activeList v = mv.activeList v ++ [j])) :=
  ⟨by decide, by decide,
    C3_activeList_nodup 1 2 [MVOp.addDer 0 0 1, MVOp.updIdx 0 0, MVOp.updIdx 0 1]
      (by decide) (by decide)⟩

/-- **C4.**  Derivative registration is two-phase:
`addDerivative(v,j,der)` accumulates `der` into the dense buffer at
`(v,j)` and sets `hasDerivative[v][j]`, leaving the values and every
active-index list untouched; and `updateIndex(v,j)` with no derivative
written at `(v,j)` leaves the whole context unchanged (a no-op, not an
error). -/
theorem C4_two_phase_registration (mv : MultiValue) (v j : ℕ) (d : ℚ)
    (hrange : mv.nderivatives * v + j < mv.derivatives.length)
    (hrange2 : mv.nderivatives * v + j < mv.hasderiv.length) :
    ((mv.addDerivative v j d).derivatives.getD (mv.nderivatives * v + j) 0
        = mv.derivatives.getD (mv.nderivatives * v + j) 0 + d) ∧
    ((mv.addDerivative v j d).hasderiv.getD (mv.nderivatives * v + j) false = true) ∧
    (∀ w, (mv.addDerivative v j d).activeList w = mv.activeList w) ∧
    ((mv.addDerivative v j d).nactive = mv.nactive) ∧
    ((mv.addDerivative v j d).active_list = mv.active_list) ∧
    ((mv.addDerivative v j d).values = mv.values) ∧
    (mv.hasderiv.getD (mv.nderivatives * v + j) false = false → mv.updateIndex v j = mv) := by
  refine ⟨?_, ?_, fun w => rfl, rfl, rfl, rfl, ?_⟩
  · show (mv.derivatives.set (mv.nderivatives * v + j) _).getD (mv.nderivatives * v + j) 0 = _
    exact getD_set_self mv.derivatives _ 0 hrange
  · show (mv.hasderiv.set (mv.nderivatives * v + j) true).getD (mv.nderivatives * v + j) false = true
    exact getD_set_self mv.hasderiv true false hrange2
  · intro h
    unfold MultiValue.updateIndex
    rw [if_neg (by rw [h]; exact Bool.false_ne_true)]

/-- Witness for C4 at a concrete context. -/
theorem C4_two_phase_registration_witness :
    ((MultiValue.resized 1 1 0 0).nderivatives * 0 + 0
        < (MultiValue.resized 1 1 0 0).derivatives.length) ∧
    (((MultiValue.resized 1 1 0 0).addDerivative 0 0 5).derivatives.getD 0 0
        = (MultiValue.resized 1 1 0 0).derivatives.getD 0 0 + 5) ∧
    ((MultiValue.resized 1 1 0 0).hasderiv.getD 0 false = false →
      (MultiValue.resized 1 1 0 0).updateIndex 0 0 = MultiValue.resized 1 1 0 0) := by
  have h := C4_two_phase_registration (MultiValue.resized 1 1 0 0) 0 0 5 (by decide) (by decide)
  exact ⟨by decide, by simpa using h.1, by simpa using h.2.2.2.2.2.2⟩

/-! ## MatrixProductBase (`src/adjmat/MatrixProductBase.cpp`) -/

/-- Static configuration of one `MatrixProductBase` action: the values
returned by the accessors the member functions call.  `arg0` / `arg1` are
the flattened element reads `getPntrToArgument(i)->get(k)`; the `prod`
fields describe the actions producing the two arguments, used by the
`skip_ieqj` detection at construction. -/
structure MPBConfig where
  nargs : ℕ
  arg0rank : ℕ
  arg1rank : ℕ
  arg0shape : List ℕ
  arg1shape : List ℕ
  arg0hasder : Bool
  arg1hasder : Bool
  arg0timeseries : Bool
  arg1timeseries : Bool
  arg0 : ℕ → ℚ
  arg1 : ℕ → ℚ
  arg0size : ℕ
  arg1size : ℕ
  natoms : ℕ
  ntasks : ℕ
  outShape1 : ℕ
  ostrn : ℕ
  nmat : ℕ
  label : String
  isAdjacencyMatrix : Bool
  skip_ieqj : Bool
  inChain : Bool
  noderiv : Bool
  arg0prodName : String
  arg1prodName : String
  arg0prodArg0Name : String
  arg1prodArg0Name : String
  arg0name : String
  arg1name : String

/-- `name.find("STACK")!=std::string::npos`. -/
def containsSTACK (s : String) : Bool := decide ((s.splitOn "STACK").length > 1)

namespace MatrixProductBase

/-- `MatrixProductBase::getMatrixShapeForFinalTasks`
(MatrixProductBase.cpp lines 153-171).  Returns the output shape and the
`skip_ieqj` flag it sets; `error(...)` becomes `Except.error`. -/
def getMatrixShapeForFinalTasks (cfg : MPBConfig) : Except String (List ℕ × Bool) :=
  if cfg.arg0rank = 1 ∧ cfg.arg1rank = 1 then
    Except.ok ([cfg.arg1shape.getD 0 0, cfg.arg0shape.getD 0 0], false)
  else if cfg.arg0rank = 2 ∧ cfg.arg1rank = 2 then
    if cfg.arg0shape.getD 1 0 ≠ cfg.arg1shape.getD 0 0 then
      Except.error "number of columns in first matrix is not equal to number of columns in second"
    else
      let shape := [cfg.arg0shape.getD 0 0, cfg.arg1shape.getD 1 0]
      if cfg.arg0prodName = "TRANSPOSE" then
        Except.ok (shape, cfg.arg0prodArg0Name = cfg.arg1name && containsSTACK cfg.arg1prodName)
      else if cfg.arg1prodName = "TRANSPOSE" then
        Except.ok (shape, cfg.arg1prodArg0Name = cfg.arg0name && containsSTACK cfg.arg0prodName)
      else
        Except.ok (shape, false)
  else
    Except.error "cannot do product of matrix and vector"

/-- The argument checks of the `MatrixProductBase` constructor
(MatrixProductBase.cpp lines 44-68) followed by
`getMatrixShapeForFinalTasks`: the shape-and-rank validation that runs
before any task is created.  Returns the output shape and `skip_ieqj`. -/
def construct (cfg : MPBConfig) : Except String (List ℕ × Bool) :=
  if cfg.nargs > 0 then
    if cfg.nargs ≠ 2 then Except.error "should only have two arguments"
    else if cfg.arg0rank = 0 ∨ cfg.arg0hasder then
      Except.error "arguments should be matrices or vectors"
    else if cfg.arg1rank = 0 ∨ cfg.arg1hasder then
      Except.error "arguments should be matrices or vectors"
    else
      match getMatrixShapeForFinalTasks cfg with
      | Except.error e => Except.error e
      | Except.ok r =>
        if cfg.arg0timeseries then
          if ¬cfg.arg1timeseries then
            Except.error "all arguments should either be time series or not time series"
          else Except.ok r
        else
          if cfg.arg1timeseries then
            Except.error "all arguments should either be time series or not time series"
          else Except.ok r
  else Except.ok ([], false)

/-- `std::vector::resize`: keep the prefix, pad with value-initialized
elements when growing. -/
def resizeList {α : Type} (l : List α) (n : ℕ) (pad : α) : List α :=
  l.take n ++ List.replicate (n - l.length) pad

/-- `MatrixProductBase::setupForTask` (MatrixProductBase.cpp lines
208-219): build the row's index array (`indices[0]` is the row anchor,
then one entry `start_n + i` per candidate column, skipping the diagonal
when `skip_ieqj`), then set both the split index and the number of
indices to the array's size. -/
def setupForTask (cfg : MPBConfig) (current : ℕ) (mv : MultiValue) : MultiValue :=
  let size_v := cfg.outShape1
  let ind0 := if cfg.skip_ieqj then resizeList mv.indices size_v 0
              else resizeList mv.indices (size_v + 1) 0
  let ind1 := ind0.set 0 current
  let start_n := cfg.ntasks
  let p := (List.range size_v).foldl
    (fun (p : List ℕ × ℕ) i =>
      if cfg.skip_ieqj ∧ mv.task_index = i then p
      else (p.1.set p.2 (start_n + i), p.2 + 1)) (ind1, 1)
  (({ mv with indices := p.1 }).setSplitIndex p.1.length).setNumberOfIndices p.1.length

/-- The sequence of column entries `indices[i]`, `1 <= i <
getSplitIndex()`, that the row loop of `MatrixProductBase::performTask`
(lines 232-238) hands to `runTask`, read in the state the loop starts
from. -/
def rowColumns (mv : MultiValue) : List ℕ :=
  ((List.range mv.nsplit).drop 1).map (fun i => mv.indices.getD i 0)

/-- `ActionWithValue::clearMatrixElements`.  Modelled from the spec:
after each element, the stream values that are not accumulated over the
whole row - for `MatrixProductBase`, the single rank-2 output at stream
position `ostrn` - are reset to their post-resize state (spec 4.2,
`clear(v)`; see the source comment at MatrixProductBase.cpp line 236);
the implementation lives outside the sources at hand. -/
def clearMatrixElements (cfg : MPBConfig) (mv : MultiValue) : MultiValue :=
  mv.clear cfg.ostrn

/-- First half of `MatrixProductBase::updateAtomicIndices`
(MatrixProductBase.cpp lines 243-256): register the active derivative
indices for the two bonded atoms, the third-block atoms and the
virial. -/
def updateAtomicIndicesActive (cfg : MPBConfig) (index1 index2 : ℕ) (mv : MultiValue) :
    MultiValue :=
  let nargd := if cfg.nargs > 0 then cfg.arg0size + cfg.arg1size else 0
  let w := cfg.ostrn
  let mv1 := ((mv.updateIndex w (nargd + 3 * index1 + 0)).updateIndex w
      (nargd + 3 * index1 + 1)).updateIndex w (nargd + 3 * index1 + 2)
  let mv2 := ((mv1.updateIndex w (nargd + 3 * index2 + 0)).updateIndex w
      (nargd + 3 * index2 + 1)).updateIndex w (nargd + 3 * index2 + 2)
  let mv3 := ((List.range mv2.nindices).drop mv2.nsplit).foldl
    (fun m i =>
      ((m.updateIndex w (nargd + 3 * (m.indices.getD i 0) + 0)).updateIndex w
          (nargd + 3 * (m.indices.getD i 0) + 1)).updateIndex w
        (nargd + 3 * (m.indices.getD i 0) + 2)) mv2
  let base := nargd + 3 * cfg.natoms
  (List.range 9).foldl (fun m j => m.updateIndex w (base + j)) mv3

/-- Continuation of `updateAtomicIndices` (lines 257-263): the three
stash entries for atom `index2`, appended outside a matrix rerun. -/
def updateAtomicIndices (cfg : MPBConfig) (index1 index2 : ℕ) (mv : MultiValue) : MultiValue :=
  let nargd := if cfg.nargs > 0 then cfg.arg0size + cfg.arg1size else 0
  let mv4 := updateAtomicIndicesActive cfg index1 index2 mv
  if ¬mv4.inMatrixRerun then
    let ni := mv4.getNumberOfMatrixIndices cfg.nmat
    let mv5 := ((mv4.setMatrixIndex cfg.nmat (ni + 0) (nargd + 3 * index2 + 0)).setMatrixIndex
        cfg.nmat (ni + 1) (nargd + 3 * index2 + 1)).setMatrixIndex cfg.nmat (ni + 2)
      (nargd + 3 * index2 + 2)
    mv5.setNumberOfMatrixIndices cfg.nmat (ni + 3)
  else mv4

/-- `MatrixProductBase::updateCentralMatrixIndex` (MatrixProductBase.cpp
lines 173-201), for the single output value the constructor creates
(line 55): append the row anchor's argument positions, its three
position components, the third-block atoms' components and the nine
virial slots to the matrix-index stash. -/
def updateCentralMatrixIndex (cfg : MPBConfig) (ind : ℕ) (indices : List ℕ) (mv : MultiValue) :
    MultiValue :=
  let nmat := cfg.nmat
  let st1 : MultiValue × ℕ :=
    if cfg.nargs > 0 then
      let nargs := if cfg.arg0rank = 2 then cfg.arg0shape.getD 1 0 else 1
      (List.range nargs).foldl
        (fun (p : MultiValue × ℕ) i => (p.1.setMatrixIndex nmat p.2 (nargs * ind + i), p.2 + 1))
        (mv, mv.getNumberOfMatrixIndices nmat)
    else (mv, mv.getNumberOfMatrixIndices nmat)
  let numargs := if cfg.nargs > 0 then cfg.arg0size + cfg.arg1size else 0
  let st2 : MultiValue × ℕ :=
    if cfg.natoms > 0 then
      let m1 := ((st1.1.setMatrixIndex nmat (st1.2 + 0) (numargs + 3 * ind + 0)).setMatrixIndex
          nmat (st1.2 + 1) (numargs + 3 * ind + 1)).setMatrixIndex nmat (st1.2 + 2)
        (numargs + 3 * ind + 2)
      let stA := ((List.range mv.nindices).drop mv.nsplit).foldl
        (fun (p : MultiValue × ℕ) i =>
          (((p.1.setMatrixIndex nmat (p.2 + 0) (numargs + 3 * (indices.getD i 0) + 0)).setMatrixIndex
              nmat (p.2 + 1) (numargs + 3 * (indices.getD i 0) + 1)).setMatrixIndex nmat (p.2 + 2)
            (numargs + 3 * (indices.getD i 0) + 2), p.2 + 3)) (m1, st1.2 + 3)
      let virbase := numargs + 3 * cfg.natoms
      ((List.range 9).foldl
        (fun (p : MultiValue × ℕ) i => (p.1.setMatrixIndex nmat p.2 (virbase + i), p.2 + 1))
        stA)
    else st1
  st2.1.setNumberOfMatrixIndices nmat st2.2

/-- The `computeVectorProduct` leaf callback (pure virtual, implemented
by the concrete matrix actions, out of the engine's scope): returns the
element value, the two derivative vectors and the possibly modified task
context. -/
def ComputeVectorProduct : Type :=
  ℕ → ℕ → List ℚ → List ℚ → MultiValue → ℚ × List ℚ × List ℚ × MultiValue

/-- `ind2` of the per-element task (MatrixProductBase.cpp line 270):
column indices past `getFullNumberOfTasks()` are shifted back into the
second argument's index space. -/
def elemInd2 (cfg : MPBConfig) (index2 : ℕ) : ℕ :=
  if index2 ≥ cfg.ntasks then index2 - cfg.ntasks else index2

/-- `sss` of the per-element task (MatrixProductBase.cpp line 272). -/
def elemSss (cfg : MPBConfig) : ℕ :=
  if cfg.nargs > 0 then (if cfg.arg1rank = 2 then cfg.arg1shape.getD 1 0 else 1) else 0

/-- `nargs` of the per-element task (MatrixProductBase.cpp line 273). -/
def elemNargs (cfg : MPBConfig) : ℕ :=
  if cfg.nargs > 0 then (if cfg.arg0rank = 2 then cfg.arg0shape.getD 1 0 else 1) else 0

/-- The gathering of the two argument slices and the
`computeVectorProduct` call (MatrixProductBase.cpp lines 275-280). -/
def elemCompute (cfg : MPBConfig) (compute : ComputeVectorProduct) (index1 index2 : ℕ)
    (mv : MultiValue) : ℚ × List ℚ × List ℚ × MultiValue :=
  compute index1 index2
    ((List.range (elemNargs cfg)).map (fun i => cfg.arg0 (index1 * elemNargs cfg + i)))
    ((List.range (elemNargs cfg)).map (fun i => cfg.arg1 (i * elemSss cfg + elemInd2 cfg index2)))
    mv

/-- One pass of the derivative/stash loop of the per-element task
(MatrixProductBase.cpp lines 299-307). -/
def argLoopStep (cfg : MPBConfig) (index1 ind2 sss nargs jind_start : ℕ) (der1 der2 : List ℚ)
    (p : MultiValue × ℕ) (i : ℕ) : MultiValue × ℕ :=
  let mA := p.1.addDerivative cfg.ostrn (nargs * index1 + i) (der1.getD i 0)
  let mB := mA.updateIndex cfg.ostrn (nargs * index1 + i)
  let mC := mB.addDerivative cfg.ostrn (jind_start + i * sss + ind2) (der2.getD i 0)
  let mD := mC.updateIndex cfg.ostrn (jind_start + i * sss + ind2)
  if ¬ mD.inMatrixRerun then
    (mD.setMatrixIndex cfg.nmat p.2 (jind_start + i * sss + ind2), p.2 + 1)
  else (mD, p.2)

/-- `MatrixProductBase::performTask(controller,index1,index2,myvals)`
(MatrixProductBase.cpp lines 266-311): the per-element task.  Returns
the C++ `bool` result together with the final context. -/
def performTaskElem (cfg : MPBConfig) (compute : ComputeVectorProduct) (controller : String)
    (index1 index2 : ℕ) (mv : MultiValue) : Bool × MultiValue :=
  if cfg.isAdjacencyMatrix ∧ controller ≠ cfg.label then (false, mv)
  else
    let r := elemCompute cfg compute index1 index2 mv
    let val := r.1
    let der1 := r.2.1
    let der2 := r.2.2.1
    let mvc := r.2.2.2
    if qabs val < epsilon then
      if ¬cfg.noderiv then
        let m1 := if cfg.natoms > 0 then updateAtomicIndices cfg index1 index2 mvc else mvc
        (false, clearMatrixElements cfg m1)
      else (false, mvc)
    else
      let m1 := mvc.setValue cfg.ostrn val
      if cfg.noderiv then (true, m1)
      else
        let jind_start := if cfg.nargs > 0 then cfg.arg0size else 0
        let st := (List.range (elemNargs cfg)).foldl
          (argLoopStep cfg index1 (elemInd2 cfg index2) (elemSss cfg) (elemNargs cfg)
            jind_start der1 der2)
          (m1, m1.getNumberOfMatrixIndices cfg.nmat)
        let m2 := st.1.setNumberOfMatrixIndices cfg.nmat st.2
        let m3 := if cfg.natoms > 0 then updateAtomicIndices cfg index1 index2 m2 else m2
        (true, m3)

/-- `MatrixProductBase::performTask(current,myvals)` (MatrixProductBase.cpp
lines 221-241): the per-row task.  `runTask` is the stream dispatcher
(`ActionWithValue::runTask`, outside the sources at hand), passed in as a
callback. -/
def performTaskRow (cfg : MPBConfig) (runTask : String → ℕ → ℕ → ℕ → MultiValue → MultiValue)
    (current : ℕ) (mv : MultiValue) : MultiValue :=
  if (¬cfg.isAdjacencyMatrix) ∧ cfg.inChain then
    if (¬cfg.noderiv) ∧ mv.inVectorCall then
      updateCentralMatrixIndex cfg mv.task_index mv.indices mv
    else mv
  else
    let mv1 := setupForTask cfg current mv
    let ntwo := mv1.getSplitIndex
    let mv2 := ((List.range ntwo).drop 1).foldl
      (fun m i => clearMatrixElements cfg (runTask cfg.label m.task_index current (m.indices.getD i 0) m))
      mv1
    if ¬cfg.noderiv then updateCentralMatrixIndex cfg mv2.task_index mv2.indices mv2 else mv2

end MatrixProductBase

/-- Sequential in-place writes: `writeFrom l k vals` writes the entries
of `vals` at positions `k, k+1, ...` of `l`. -/
def writeFrom (l : List ℕ) (k : ℕ) (vals : List ℕ) : List ℕ :=
  match vals with
  | [] => l
  | v :: vs => writeFrom (l.set k v) (k + 1) vs

theorem writeFrom_length (vals : List ℕ) (l : List ℕ) (k : ℕ) :
    (writeFrom l k vals).length = l.length := by
  induction vals generalizing l k with
  | nil => rfl
  | cons v vs ih => rw [writeFrom, ih, List.length_set]

theorem writeFrom_getD_lt (vals : List ℕ) (l : List ℕ) (k q : ℕ) (hq : q < k) :
    (writeFrom l k vals).getD q 0 = l.getD q 0 := by
  induction vals generalizing l k with
  | nil => rfl
  | cons v vs ih =>
    rw [writeFrom, ih (l.set k v) (k + 1) (Nat.lt_succ_of_lt hq)]
    exact getD_set_ne l v 0 (fun he => absurd he.symm (Nat.ne_of_lt hq))

theorem writeFrom_getD_at (vals : List ℕ) (l : List ℕ) (k j : ℕ)
    (hj : j < vals.length) (hrange : k + j < l.length) :
    (writeFrom l k vals).getD (k + j) 0 = vals.getD j 0 := by
  induction vals generalizing l k j with
  | nil => exact absurd hj (Nat.not_lt_zero j)
  | cons v vs ih =>
    rw [writeFrom]
    cases j with
    | zero =>
      simp only [Nat.add_zero, List.getD_cons_zero]
      rw [writeFrom_getD_lt vs (l.set k v) (k + 1) k (Nat.lt_succ_self k)]
      exact getD_set_self l v 0 (by simpa using hrange)
    | succ m =>
      have he : k + (m + 1) = (k + 1) + m := by omega
      rw [he, ih (l.set k v) (k + 1) m (by simpa using hj) (by rw [List.length_set]; omega)]
      rfl

/-- The column-writing loop of `setupForTask`, rewritten as a filtered
sequential write. -/
theorem foldl_skip_writeFrom (P : ℕ → Prop) [DecidablePred P] (f : ℕ → ℕ)
    (L : List ℕ) (l : List ℕ) (k : ℕ) :
    (L.foldl (fun (p : List ℕ × ℕ) i =>
        if P i then p else (p.1.set p.2 (f i), p.2 + 1)) (l, k))
      = (writeFrom l k ((L.filter (fun i => decide (¬ P i))).map f),
         k + ((L.filter (fun i => decide (¬ P i))).map f).length) := by
  induction L generalizing l k with
  | nil => simp [writeFrom]
  | cons i L ih =>
    by_cases hP : P i
    · have hf : (i :: L).filter (fun i => decide (¬ P i)) = L.filter (fun i => decide (¬ P i)) := by
        rw [List.filter_cons]
        simp [hP]
      rw [List.foldl_cons, if_pos hP, hf]
      exact ih l k
    · have hf : (i :: L).filter (fun i => decide (¬ P i))
          = i :: L.filter (fun i => decide (¬ P i)) := by
        rw [List.filter_cons]
        simp [hP]
      rw [List.foldl_cons, if_neg hP, hf, List.map_cons]
      rw [show writeFrom l k (f i :: (L.filter (fun i => decide (¬ P i))).map f)
          = writeFrom (l.set k (f i)) (k + 1) ((L.filter (fun i => decide (¬ P i))).map f)
        from rfl]
      rw [ih (l.set k (f i)) (k + 1)]
      refine Prod.ext rfl ?_
      simp only [List.length_cons]
      omega

theorem length_filter_ne_range (n t : ℕ) :
    ((List.range n).filter (fun i => decide (¬ t = i))).length
      = n - (if t < n then 1 else 0) := by
  induction n with
  | zero => simp
  | succ m ih =>
    rw [List.range_succ, List.filter_append, List.length_append, ih]
    by_cases ht : t = m
    · have h1 : [m].filter (fun i => decide (¬ t = i)) = [] := by simp [ht]
      rw [h1]
      have h2 : ¬ t < m := by omega
      have h3 : t < m + 1 := by omega
      rw [if_neg h2, if_pos h3]
      simp
    · have h1 : [m].filter (fun i => decide (¬ t = i)) = [m] := by simp [ht]
      rw [h1]
      by_cases h2 : t < m
      · rw [if_pos h2, if_pos (by omega)]
        simp only [List.length_cons, List.length_nil]
        omega
      · rw [if_neg h2, if_neg (by omega)]
        simp only [List.length_cons, List.length_nil]
        omega

theorem resizeList_length {α : Type} (l : List α) (n : ℕ) (pad : α) :
    (MatrixProductBase.resizeList l n pad).length = n := by
  simp [MatrixProductBase.resizeList]
  omega

namespace MatrixProductBase

/-- The candidate column entries written by `setupForTask`: one entry
`getFullNumberOfTasks() + i` per column `i`, skipping the diagonal
column when `skip_ieqj`. -/
def setupCols (cfg : MPBConfig) (task : ℕ) : List ℕ :=
  ((List.range cfg.outShape1).filter
    (fun i => decide (¬ (cfg.skip_ieqj ∧ task = i)))).map (fun i => cfg.ntasks + i)

theorem setupCols_length_eq_of_not_skip (cfg : MPBConfig) (task : ℕ)
    (hs : ¬ cfg.skip_ieqj = true) : (setupCols cfg task).length = cfg.outShape1 := by
  unfold setupCols
  rw [List.length_map]
  have he : (fun i => decide (¬ (cfg.skip_ieqj = true ∧ task = i))) = fun _ => true := by
    funext i
    simp [hs]
  rw [he]
  simp

theorem setupCols_length_ge (cfg : MPBConfig) (task : ℕ) :
    cfg.outShape1 - 1 ≤ (setupCols cfg task).length := by
  by_cases hs : cfg.skip_ieqj = true
  · unfold setupCols
    rw [List.length_map]
    have he : (fun i => decide (¬ (cfg.skip_ieqj = true ∧ task = i)))
        = fun i => decide (¬ task = i) := by
      funext i
      simp [hs]
    rw [he, length_filter_ne_range]
    split <;> omega
  · rw [setupCols_length_eq_of_not_skip cfg task hs]
    omega

theorem mem_setupCols (cfg : MPBConfig) (task x : ℕ) (hx : x ∈ setupCols cfg task) :
    ∃ i, i < cfg.outShape1 ∧ ¬ (cfg.skip_ieqj ∧ task = i) ∧ x = cfg.ntasks + i := by
  unfold setupCols at hx
  rcases List.mem_map.mp hx with ⟨i, hi, he⟩
  rcases List.mem_filter.mp hi with ⟨hr, hcond⟩
  exact ⟨i, List.mem_range.mp hr, of_decide_eq_true hcond, he.symm⟩

/-- The index array produced by `setupForTask`: the resized scratch
array with the anchor in slot `0` and the candidate-column entries
written from slot `1` on. -/
def setupIndicesArr (cfg : MPBConfig) (current : ℕ) (mv : MultiValue) : List ℕ :=
  writeFrom
    ((if cfg.skip_ieqj then resizeList mv.indices cfg.outShape1 0
      else resizeList mv.indices (cfg.outShape1 + 1) 0).set 0 current) 1
    (setupCols cfg mv.task_index)

/-- Characterization of `setupForTask`: the split index and the number
of indices are both set to the index-array size; slot `0` holds the row
anchor; every slot in `[1, splitIndex)` holds the corresponding
candidate-column entry. -/
theorem setupForTask_spec (cfg : MPBConfig) (current : ℕ) (mv : MultiValue) :
    ((setupForTask cfg current mv).nsplit = (setupForTask cfg current mv).nindices) ∧
    ((setupForTask cfg current mv).nindices = (setupForTask cfg current mv).indices.length) ∧
    ((setupForTask cfg current mv).indices.length
        = (if cfg.skip_ieqj then cfg.outShape1 else cfg.outShape1 + 1)) ∧
    (0 < (setupForTask cfg current mv).indices.length →
      (setupForTask cfg current mv).indices.getD 0 0 = current) ∧
    (∀ p, 1 ≤ p → p < (setupForTask cfg current mv).nsplit →
      p - 1 < (setupCols cfg mv.task_index).length ∧
      (setupForTask cfg current mv).indices.getD p 0
        = (setupCols cfg mv.task_index).getD (p - 1) 0) := by
  have key : setupForTask cfg current mv =
      (({ mv with indices := setupIndicesArr cfg current mv }).setSplitIndex
          (setupIndicesArr cfg current mv).length).setNumberOfIndices
        (setupIndicesArr cfg current mv).length := by
    simp only [setupForTask, setupIndicesArr]
    rw [foldl_skip_writeFrom (fun i => cfg.skip_ieqj ∧ mv.task_index = i)
      (fun i => cfg.ntasks + i) (List.range cfg.outShape1) _ 1]
    rfl
  have hL : ((if cfg.skip_ieqj then resizeList mv.indices cfg.outShape1 0
      else resizeList mv.indices (cfg.outShape1 + 1) 0)).length
        = (if cfg.skip_ieqj then cfg.outShape1 else cfg.outShape1 + 1) := by
    by_cases hs : cfg.skip_ieqj
    · rw [if_pos hs, if_pos hs, resizeList_length]
    · rw [if_neg hs, if_neg hs, resizeList_length]
  rw [key]
  refine ⟨rfl, rfl, ?_, ?_, ?_⟩
  · show (setupIndicesArr cfg current mv).length = _
    rw [setupIndicesArr, writeFrom_length, List.length_set, hL]
  · intro hpos
    show (setupIndicesArr cfg current mv).getD 0 0 = current
    rw [setupIndicesArr, writeFrom_getD_lt _ _ 1 0 Nat.one_pos]
    refine getD_set_self _ current 0 ?_
    simpa [MultiValue.setSplitIndex, MultiValue.setNumberOfIndices, setupIndicesArr,
      writeFrom_length, List.length_set] using hpos
  · intro p hp1 hps
    have hps' : p < (if cfg.skip_ieqj then cfg.outShape1 else cfg.outShape1 + 1) := by
      simpa [MultiValue.setNumberOfIndices, MultiValue.setSplitIndex, setupIndicesArr,
        writeFrom_length, List.length_set, hL] using hps
    have hjlen : p - 1 < (setupCols cfg mv.task_index).length := by
      by_cases hs : cfg.skip_ieqj = true
      · have := setupCols_length_ge cfg mv.task_index
        rw [if_pos hs] at hps'
        omega
      · rw [setupCols_length_eq_of_not_skip cfg mv.task_index hs]
        rw [if_neg hs] at hps'
        omega
    obtain ⟨j, rfl⟩ : ∃ j, p = 1 + j := ⟨p - 1, by omega⟩
    simp only [Nat.add_sub_cancel_left] at hjlen ⊢
    refine ⟨hjlen, ?_⟩
    show (setupIndicesArr cfg current mv).getD (1 + j) 0 = _
    rw [setupIndicesArr, writeFrom_getD_at _ _ 1 j hjlen ?_]
    rw [List.length_set, hL]
    by_cases hs : cfg.skip_ieqj = true
    · rw [if_pos hs]
      rw [if_pos hs] at hps'
      omega
    · rw [if_neg hs]
      rw [if_neg hs] at hps'
      omega

end MatrixProductBase

/-- `MultiValue::setNumberOfMatrixRowDerivatives` (MultiValue.h line 295). -/
def MultiValue.setNumberOfMatrixRowDerivatives (mv : MultiValue) (nind : ℕ) : MultiValue :=
  { mv with matrix_row_nderivatives := nind }

/-- `MultiValue::getNumberOfMatrixRowDerivatives` (MultiValue.h line 301). -/
def MultiValue.getNumberOfMatrixRowDerivatives (mv : MultiValue) : ℕ :=
  mv.matrix_row_nderivatives

/-- A write through the reference returned by
`MultiValue::getMatrixRowDerivativeIndices` (MultiValue.h line 306):
`getMatrixRowDerivativeIndices()[pos] = v`. -/
def MultiValue.setMatrixRowDerivativeIndex (mv : MultiValue) (pos v : ℕ) : MultiValue :=
  { mv with matrix_row_derivative_indices := mv.matrix_row_derivative_indices.set pos v }

/-! ## OuterProduct (`src/matrixtools/OuterProduct.cpp`) -/

/-- Static configuration of one `OuterProduct` action: the values its
member functions read through the accessors; `f`, `f0`, `f1` are the
parsed Lepton function and its two partial derivatives (leaf
collaborator). -/
structure OPConfig where
  arg0shape0 : ℕ
  arg1shape0 : ℕ
  arg0stored : ℕ
  arg0 : ℕ → ℚ
  arg1 : ℕ → ℚ
  nmasks : ℕ
  maskRowLen : ℕ → ℕ
  maskRowIdx : ℕ → ℕ → ℕ
  domin : Bool
  domax : Bool
  diagzero : Bool
  f : ℚ → ℚ → ℚ
  f0 : ℚ → ℚ → ℚ
  f1 : ℚ → ℚ → ℚ
  noderiv : Bool

namespace OuterProduct

/-- `OuterProduct::setupForTask` (OuterProduct.cpp lines 114-137). -/
def setupForTask (cfg : OPConfig) (task_index : ℕ) (mv : MultiValue) : MultiValue :=
  let start_n := cfg.arg0shape0
  if cfg.nmasks > 0 then
    let size_v := cfg.maskRowLen task_index
    let ind0 := MatrixProductBase.resizeList mv.indices (size_v + 1) 0
    let ind1 := (List.range size_v).foldl
      (fun l i => l.set (i + 1) (start_n + cfg.maskRowIdx task_index i)) ind0
    ({ mv with indices := ind1 }).setSplitIndex (1 + size_v)
  else
    let size_v := cfg.arg1shape0
    if cfg.diagzero then
      let ind0 := MatrixProductBase.resizeList mv.indices size_v 0
      let p := (List.range size_v).foldl
        (fun (p : List ℕ × ℕ) i =>
          if task_index = i then p else (p.1.set p.2 (size_v + i), p.2 + 1)) (ind0, 1)
      ({ mv with indices := p.1 }).setSplitIndex size_v
    else
      let ind0 := MatrixProductBase.resizeList mv.indices (size_v + 1) 0
      let ind1 := (List.range size_v).foldl (fun l i => l.set (i + 1) (start_n + i)) ind0
      ({ mv with indices := ind1 }).setSplitIndex (size_v + 1)

/-- `OuterProduct::performTask` (OuterProduct.cpp lines 139-168).  The
unused `controller` parameter is kept to mirror the signature. -/
def performTask (cfg : OPConfig) (controller : String) (index1 index2 : ℕ) (mv : MultiValue) :
    MultiValue :=
  let ind2 := if index2 ≥ cfg.arg0shape0 then index2 - cfg.arg0shape0 else index2
  if cfg.diagzero ∧ index1 = ind2 then mv
  else
    let args0 := cfg.arg0 index1
    let args1 := cfg.arg1 ind2
    let r : ℚ × ℕ × ℕ :=
      if cfg.domin then
        if args1 < args0 then (args1, cfg.arg0stored, ind2) else (args0, 0, index1)
      else if cfg.domax then
        if args1 > args0 then (args1, cfg.arg0stored, ind2) else (args0, 0, index1)
      else (cfg.f args0 args1, 0, index1)
    let mv1 := mv.addValue 0 r.1
    if cfg.noderiv then mv1
    else
      let mv2 :=
        if cfg.domin ∨ cfg.domax then
          (mv1.addDerivative 0 (r.2.1 + r.2.2) 1).updateIndex 0 (r.2.1 + r.2.2)
        else
          let mA := (mv1.addDerivative 0 index1 (cfg.f0 args0 args1)).updateIndex 0 index1
          (mA.addDerivative 0 (cfg.arg0stored + ind2) (cfg.f1 args0 args1)).updateIndex 0
            (cfg.arg0stored + ind2)
      if cfg.noderiv then mv2
      else
        let nmat_ind := mv2.getNumberOfMatrixRowDerivatives
        (mv2.setMatrixRowDerivativeIndex nmat_ind
          (cfg.arg0stored + ind2)).setNumberOfMatrixRowDerivatives (nmat_ind + 1)

/-- The candidate column entries written by the `diagzero` branch of
`OuterProduct::setupForTask`. -/
def diagzeroCols (cfg : OPConfig) (task : ℕ) : List ℕ :=
  ((List.range cfg.arg1shape0).filter (fun i => decide (¬ task = i))).map
    (fun i => cfg.arg1shape0 + i)

/-- The index array written by the `diagzero` branch of
`OuterProduct::setupForTask`. -/
def diagzeroArr (cfg : OPConfig) (task : ℕ) (mv : MultiValue) : List ℕ :=
  writeFrom (MatrixProductBase.resizeList mv.indices cfg.arg1shape0 0) 1 (diagzeroCols cfg task)

/-- In the `diagzero` branch of `OuterProduct::setupForTask`, no slot of
`[1, splitIndex)` holds the diagonal column entry `size_v + task`. -/
theorem setupForTask_diagzero_excludes (cfg : OPConfig) (task : ℕ) (mv : MultiValue)
    (hdz : cfg.diagzero = true) (hmask : cfg.nmasks = 0) :
    ∀ p, 1 ≤ p → p < (setupForTask cfg task mv).nsplit →
      (setupForTask cfg task mv).indices.getD p 0 ≠ cfg.arg1shape0 + task := by
  intro p hp1 hps
  have hkey : setupForTask cfg task mv =
      ({ mv with indices := diagzeroArr cfg task mv }).setSplitIndex cfg.arg1shape0 := by
    simp only [setupForTask, hmask, gt_iff_lt, Nat.lt_irrefl, if_false, hdz, if_true,
      diagzeroArr, diagzeroCols]
    rw [foldl_skip_writeFrom (fun i => task = i) (fun i => cfg.arg1shape0 + i)
      (List.range cfg.arg1shape0) _ 1]
  rw [hkey] at hps ⊢
  have hps' : p < cfg.arg1shape0 := hps
  have hclen : cfg.arg1shape0 - 1 ≤ (diagzeroCols cfg task).length := by
    rw [diagzeroCols, List.length_map, length_filter_ne_range]
    split <;> omega
  have hjlen : p - 1 < (diagzeroCols cfg task).length := by omega
  obtain ⟨j, rfl⟩ : ∃ j, p = 1 + j := ⟨p - 1, by omega⟩
  simp only [Nat.add_sub_cancel_left] at hjlen
  show (diagzeroArr cfg task mv).getD (1 + j) 0 ≠ _
  rw [diagzeroArr, writeFrom_getD_at _ _ 1 j hjlen (by rw [resizeList_length]; omega)]
  have hmem : (diagzeroCols cfg task).getD j 0 ∈ diagzeroCols cfg task := by
    rw [List.getD_eq_getElem?_getD, List.getElem?_eq_getElem hjlen]
    exact List.getElem_mem hjlen
  rw [diagzeroCols] at hmem
  rcases List.mem_map.mp hmem with ⟨i, hi, he⟩
  rcases List.mem_filter.mp hi with ⟨hr, hcond⟩
  rw [diagzeroCols, ← he]
  intro hcontra
  exact (of_decide_eq_true hcond) (Nat.add_left_cancel hcontra).symm

end OuterProduct

/-! ## Claims C5, C6, C8 -/

theorem getD_mem_of_lt {l : List ℕ} {j : ℕ} (h : j < l.length) : l.getD j 0 ∈ l := by
  rw [List.getD_eq_getElem?_getD, List.getElem?_eq_getElem h]
  exact List.getElem_mem h

theorem mem_drop_one_range {n p : ℕ} (h : p ∈ (List.range n).drop 1) : 1 ≤ p ∧ p < n := by
  cases n with
  | zero => simp at h
  | succ m =>
    rw [List.range_succ_eq_map, List.drop_one, List.tail_cons] at h
    rcases List.mem_map.mp h with ⟨k, hk, rfl⟩
    exact ⟨Nat.succ_le_succ (Nat.zero_le k), Nat.succ_lt_succ (List.mem_range.mp hk)⟩

/-- With `skip_ieqj`, the diagonal column entry never appears among the
columns the row loop hands to `runTask`. -/
theorem MatrixProductBase.rowColumns_skip_excludes (cfg : MPBConfig) (current : ℕ)
    (mv : MultiValue) (hs : cfg.skip_ieqj = true) :
    (cfg.ntasks + mv.task_index) ∉
      MatrixProductBase.rowColumns (MatrixProductBase.setupForTask cfg current mv) := by
  intro hmem
  unfold MatrixProductBase.rowColumns at hmem
  rcases List.mem_map.mp hmem with ⟨p, hp, he⟩
  obtain ⟨hp1, hpn⟩ := mem_drop_one_range hp
  obtain ⟨_, _, _, _, h5⟩ := MatrixProductBase.setupForTask_spec cfg current mv
  obtain ⟨hjl, hje⟩ := h5 p hp1 hpn
  have hmem2 := getD_mem_of_lt hjl
  obtain ⟨i, hi, hcond, hx⟩ := MatrixProductBase.mem_setupCols cfg mv.task_index _ hmem2
  rw [hje, hx] at he
  exact hcond ⟨hs, (Nat.add_left_cancel he).symm⟩

/-- **C6.**  When the diagonal-skip flag is set (`skip_ieqj` in
`MatrixProductBase`, `ELEMENTS_ON_DIAGONAL_ARE_ZERO` in `OuterProduct`),
the diagonal element is never computed through the general element path:
(i) `MatrixProductBase::setupForTask` puts no diagonal-column entry into
the slots `[1, splitIndex)` that the row loop feeds to `runTask`;
(ii) the `diagzero` branch of `OuterProduct::setupForTask` likewise
excludes the diagonal column; and (iii) `OuterProduct::performTask`
returns with the task context unchanged - before any arithmetic - when
the row and (offset-corrected) column indices coincide. -/
theorem C6_diagonal_skip :
    (∀ (cfg : MPBConfig) (current : ℕ) (mv : MultiValue), cfg.skip_ieqj = true →
      (cfg.ntasks + mv.task_index) ∉
        MatrixProductBase.rowColumns (MatrixProductBase.setupForTask cfg current mv)) ∧
    (∀ (cfg : OPConfig) (task : ℕ) (mv : MultiValue),
      cfg.diagzero = true → cfg.nmasks = 0 →
      ∀ p, 1 ≤ p → p < (OuterProduct.setupForTask cfg task mv).nsplit →
        (OuterProduct.setupForTask cfg task mv).indices.getD p 0 ≠ cfg.arg1shape0 + task) ∧
    (∀ (cfg : OPConfig) (controller : String) (index1 index2 : ℕ) (mv : MultiValue),
      cfg.diagzero = true →
      index1 = (if index2 ≥ cfg.arg0shape0 then index2 - cfg.arg0shape0 else index2) →
      OuterProduct.performTask cfg controller index1 index2 mv = mv) := by
  refine ⟨MatrixProductBase.rowColumns_skip_excludes,
    OuterProduct.setupForTask_diagzero_excludes, ?_⟩
  intro cfg controller index1 index2 mv hdz hid
  simp only [OuterProduct.performTask]
  rw [if_pos ⟨hdz, hid⟩]

/-- A concrete skip-diagonal matrix-product configuration (a 2x2 matrix
times its own transpose). -/
def cfgMPB6 : MPBConfig where
  nargs := 2
  arg0rank := 2
  arg1rank := 2
  arg0shape := [2, 2]
  arg1shape := [2, 2]
  arg0hasder := false
  arg1hasder := false
  arg0timeseries := false
  arg1timeseries := false
  arg0 := fun _ => 0
  arg1 := fun _ => 0
  arg0size := 4
  arg1size := 4
  natoms := 0
  ntasks := 2
  outShape1 := 2
  ostrn := 0
  nmat := 0
  label := "m"
  isAdjacencyMatrix := false
  skip_ieqj := true
  inChain := false
  noderiv := false
  arg0prodName := "TRANSPOSE"
  arg1prodName := "VSTACK"
  arg0prodArg0Name := "v"
  arg1prodArg0Name := ""
  arg0name := "a"
  arg1name := "v"

/-- A concrete diagonal-zero outer-product configuration. -/
def cfgOP6 : OPConfig where
  arg0shape0 := 2
  arg1shape0 := 2
  arg0stored := 2
  arg0 := fun _ => 1
  arg1 := fun _ => 1
  nmasks := 0
  maskRowLen := fun _ => 0
  maskRowIdx := fun _ _ => 0
  domin := false
  domax := false
  diagzero := true
  f := fun x y => x * y
  f0 := fun _ y => y
  f1 := fun x _ => x
  noderiv := false

/-- Witness for C6 at the concrete configurations. -/
theorem C6_diagonal_skip_witness :
    (cfgMPB6.skip_ieqj = true ∧
      (cfgMPB6.ntasks + (MultiValue.resized 1 1 0 0).task_index) ∉
        MatrixProductBase.rowColumns
          (MatrixProductBase.setupForTask cfgMPB6 0 (MultiValue.resized 1 1 0 0))) ∧
    (cfgOP6.diagzero = true ∧ cfgOP6.nmasks = 0 ∧
      (1 ≤ 1 ∧ 1 < (OuterProduct.setupForTask cfgOP6 0 (MultiValue.resized 1 1 0 0)).nsplit) ∧
      (OuterProduct.setupForTask cfgOP6 0 (MultiValue.resized 1 1 0 0)).indices.getD 1 0
        ≠ cfgOP6.arg1shape0 + 0) ∧
    (cfgOP6.diagzero = true ∧
      1 = (if 3 ≥ cfgOP6.arg0shape0 then 3 - cfgOP6.arg0shape0 else 3) ∧
      OuterProduct.performTask cfgOP6 "op" 1 3 (MultiValue.resized 1 1 0 0)
        = MultiValue.resized 1 1 0 0) :=
  ⟨⟨by decide, C6_diagonal_skip.1 cfgMPB6 0 (MultiValue.resized 1 1 0 0) (by decide)⟩,
   ⟨by decide, by decide, ⟨by decide, by decide⟩,
     C6_diagonal_skip.2.1 cfgOP6 0 (MultiValue.resized 1 1 0 0) (by decide) (by decide) 1
       (by decide) (by decide)⟩,
   ⟨by decide, by decide,
     C6_diagonal_skip.2.2 cfgOP6 "op" 1 3 (MultiValue.resized 1 1 0 0) (by decide) (by decide)⟩⟩

/-- A concrete matrix-product configuration without diagonal skip
(2x3 times 3x2 shapes are irrelevant here; `outShape1 = 2`, two row
tasks). -/
def cfgC8 : MPBConfig where
  nargs := 2
  arg0rank := 2
  arg1rank := 2
  arg0shape := [2, 2]
  arg1shape := [2, 2]
  arg0hasder := false
  arg1hasder := false
  arg0timeseries := false
  arg1timeseries := false
  arg0 := fun _ => 0
  arg1 := fun _ => 0
  arg0size := 4
  arg1size := 4
  natoms := 0
  ntasks := 2
  outShape1 := 2
  ostrn := 0
  nmat := 0
  label := "m"
  isAdjacencyMatrix := false
  skip_ieqj := false
  inChain := false
  noderiv := false
  arg0prodName := "A"
  arg1prodName := "B"
  arg0prodArg0Name := ""
  arg1prodArg0Name := ""
  arg0name := "a"
  arg1name := "b"

/-- **C8, counterexample.**  The claim states that every position in
`[0, splitIndex)` refers to the row's own anchor.  On the code,
`setupForTask` sets `splitIndex = numberOfIndices = indices.size()`, so
position `1 < splitIndex` holds the first candidate-column entry
(`getFullNumberOfTasks() + 0 = 2`), not the anchor (`0`). -/
theorem C8_counterexample :
    ((MatrixProductBase.setupForTask cfgC8 0 (MultiValue.resized 1 1 0 0)).getSplitIndex = 3) ∧
    (1 < (MatrixProductBase.setupForTask cfgC8 0 (MultiValue.resized 1 1 0 0)).getSplitIndex) ∧
    ((MatrixProductBase.setupForTask cfgC8 0 (MultiValue.resized 1 1 0 0)).indices.getD 1 0 = 2) ∧
    ¬ ((MatrixProductBase.setupForTask cfgC8 0 (MultiValue.resized 1 1 0 0)).indices.getD 1 0
        = 0) := by
  refine ⟨by decide, by decide, by decide, by decide⟩

/-- **C8 (amended).**  After `setupForTask`, `getSplitIndex() =
getNumberOfIndices()` (so `<=` holds with equality); slot `0` of the
shared indices array holds the row's own anchor; and every position in
`[1, splitIndex)` holds a candidate-column entry
`getFullNumberOfTasks() + i` with `i` a non-skipped column; the region
`[splitIndex, numberOfIndices)` is empty. -/
theorem C8_split_and_indices (cfg : MPBConfig) (current : ℕ) (mv : MultiValue) :
    ((MatrixProductBase.setupForTask cfg current mv).getSplitIndex
        ≤ (MatrixProductBase.setupForTask cfg current mv).getNumberOfIndices) ∧
    ((MatrixProductBase.setupForTask cfg current mv).getSplitIndex
        = (MatrixProductBase.setupForTask cfg current mv).getNumberOfIndices) ∧
    (0 < (MatrixProductBase.setupForTask cfg current mv).indices.length →
      (MatrixProductBase.setupForTask cfg current mv).indices.getD 0 0 = current) ∧
    (∀ p, 1 ≤ p → p < (MatrixProductBase.setupForTask cfg current mv).getSplitIndex →
      ∃ i, i < cfg.outShape1 ∧ ¬ (cfg.skip_ieqj ∧ mv.task_index = i) ∧
        (MatrixProductBase.setupForTask cfg current mv).indices.getD p 0 = cfg.ntasks + i) := by
  obtain ⟨h1, h2, h3, h4, h5⟩ := MatrixProductBase.setupForTask_spec cfg current mv
  refine ⟨le_of_eq h1, h1, h4, ?_⟩
  intro p hp1 hps
  obtain ⟨hjl, hje⟩ := h5 p hp1 hps
  have hmem := getD_mem_of_lt hjl
  obtain ⟨i, hi, hcond, hx⟩ := MatrixProductBase.mem_setupCols cfg mv.task_index _ hmem
  exact ⟨i, hi, hcond, by rw [hje, hx]⟩

/-- Witness for C8 at the concrete configuration. -/
theorem C8_split_and_indices_witness :
    (0 < (MatrixProductBase.setupForTask cfgC8 0 (MultiValue.resized 1 1 0 0)).indices.length) ∧
    ((MatrixProductBase.setupForTask cfgC8 0 (MultiValue.resized 1 1 0 0)).indices.getD 0 0 = 0) ∧
    ((1 : ℕ) ≤ 1) ∧
    (1 < (MatrixProductBase.setupForTask cfgC8 0 (MultiValue.resized 1 1 0 0)).getSplitIndex) ∧
    (∃ i, i < cfgC8.outShape1 ∧
      ¬ (cfgC8.skip_ieqj ∧ (MultiValue.resized 1 1 0 0).task_index = i) ∧
      (MatrixProductBase.setupForTask cfgC8 0 (MultiValue.resized 1 1 0 0)).indices.getD 1 0
        = cfgC8.ntasks + i) :=
  ⟨by decide,
   (C8_split_and_indices cfgC8 0 (MultiValue.resized 1 1 0 0)).2.2.1 (by decide),
   by decide, by decide,
   (C8_split_and_indices cfgC8 0 (MultiValue.resized 1 1 0 0)).2.2.2 1 (by decide) (by decide)⟩

/-- Error characterization of `getMatrixShapeForFinalTasks`: it fails
exactly when the two arguments are neither both rank 1 nor both rank 2,
or both rank 2 with mismatched inner dimensions. -/
theorem MatrixProductBase.gms_error_iff (cfg : MPBConfig) :
    (∃ e, MatrixProductBase.getMatrixShapeForFinalTasks cfg = Except.error e) ↔
      ((¬ (cfg.arg0rank = 1 ∧ cfg.arg1rank = 1) ∧ ¬ (cfg.arg0rank = 2 ∧ cfg.arg1rank = 2)) ∨
        ((cfg.arg0rank = 2 ∧ cfg.arg1rank = 2) ∧
          cfg.arg0shape.getD 1 0 ≠ cfg.arg1shape.getD 0 0)) := by
  unfold MatrixProductBase.getMatrixShapeForFinalTasks
  by_cases hb1 : cfg.arg0rank = 1 ∧ cfg.arg1rank = 1
  · rw [if_pos hb1]
    constructor
    · rintro ⟨e, he⟩
      exact Except.noConfusion he
    · rintro (⟨hn1, _⟩ | ⟨⟨h20, _⟩, _⟩)
      · exact absurd hb1 hn1
      · omega
  · rw [if_neg hb1]
    by_cases hb2 : cfg.arg0rank = 2 ∧ cfg.arg1rank = 2
    · rw [if_pos hb2]
      by_cases hcm : cfg.arg0shape.getD 1 0 ≠ cfg.arg1shape.getD 0 0
      · rw [if_pos hcm]
        constructor
        · intro _
          exact Or.inr ⟨hb2, hcm⟩
        · intro _
          exact ⟨_, rfl⟩
      · rw [if_neg hcm]
        push_neg at hcm
        constructor
        · rintro ⟨e, he⟩
          split_ifs at he <;> exact Except.noConfusion he
        · rintro (⟨_, hn2⟩ | ⟨_, hne⟩)
          · exact absurd hb2 hn2
          · exact absurd hcm hne
    · rw [if_neg hb2]
      constructor
      · intro _
        exact Or.inl ⟨hb1, hb2⟩
      · intro _
        exact ⟨_, rfl⟩

/-- The exact error message of the rank-2 dimension mismatch. -/
theorem MatrixProductBase.gms_error_msg (cfg : MPBConfig)
    (h2 : cfg.arg0rank = 2 ∧ cfg.arg1rank = 2)
    (hcm : cfg.arg0shape.getD 1 0 ≠ cfg.arg1shape.getD 0 0) :
    MatrixProductBase.getMatrixShapeForFinalTasks cfg = Except.error
      "number of columns in first matrix is not equal to number of columns in second" := by
  unfold MatrixProductBase.getMatrixShapeForFinalTasks
  rw [if_neg (by omega : ¬ (cfg.arg0rank = 1 ∧ cfg.arg1rank = 1)), if_pos h2, if_pos hcm]

/-- **C5.**  With two arguments that carry no derivatives and agree on
time-series-ness, construction fails exactly when the arguments are not
both rank 1 and not both rank 2, or both rank 2 with the column count of
the first different from the row count of the second; in the latter case
the error message is exactly `"number of columns in first matrix is not
equal to number of columns in second"`.  (The embedded evaluation-time
functions `setupForTask` / `performTaskElem` / `performTaskRow` are
total and raise no shape error: the check runs only at construction.) -/
theorem C5_construction_shape_errors (cfg : MPBConfig)
    (h2 : cfg.nargs = 2) (hd0 : cfg.arg0hasder = false) (hd1 : cfg.arg1hasder = false)
    (hts : cfg.arg0timeseries = cfg.arg1timeseries) :
    ((∃ e, MatrixProductBase.construct cfg = Except.error e) ↔
      ((¬ (cfg.arg0rank = 1 ∧ cfg.arg1rank = 1) ∧ ¬ (cfg.arg0rank = 2 ∧ cfg.arg1rank = 2)) ∨
        ((cfg.arg0rank = 2 ∧ cfg.arg1rank = 2) ∧
          cfg.arg0shape.getD 1 0 ≠ cfg.arg1shape.getD 0 0))) ∧
    ((cfg.arg0rank = 2 ∧ cfg.arg1rank = 2 ∧
        cfg.arg0shape.getD 1 0 ≠ cfg.arg1shape.getD 0 0) →
      MatrixProductBase.construct cfg = Except.error
        "number of columns in first matrix is not equal to number of columns in second") := by
  have hng : cfg.nargs > 0 := by omega
  have hne2 : ¬ cfg.nargs ≠ 2 := by omega
  constructor
  · by_cases hr0 : cfg.arg0rank = 0
    · have hcon : MatrixProductBase.construct cfg
          = Except.error "arguments should be matrices or vectors" := by
        unfold MatrixProductBase.construct
        rw [if_pos hng, if_neg hne2, if_pos (Or.inl hr0)]
      constructor
      · intro _
        exact Or.inl ⟨by omega, by omega⟩
      · intro _
        exact ⟨_, hcon⟩
    · have hc0 : ¬ (cfg.arg0rank = 0 ∨ cfg.arg0hasder = true) := by
        rintro (h | h)
        · exact hr0 h
        · rw [hd0] at h
          exact Bool.false_ne_true h
      by_cases hr1 : cfg.arg1rank = 0
      · have hcon : MatrixProductBase.construct cfg
            = Except.error "arguments should be matrices or vectors" := by
          unfold MatrixProductBase.construct
          rw [if_pos hng, if_neg hne2, if_neg hc0, if_pos (Or.inl hr1)]
        constructor
        · intro _
          exact Or.inl ⟨by omega, by omega⟩
        · intro _
          exact ⟨_, hcon⟩
      · have hc1 : ¬ (cfg.arg1rank = 0 ∨ cfg.arg1hasder = true) := by
          rintro (h | h)
          · exact hr1 h
          · rw [hd1] at h
            exact Bool.false_ne_true h
        cases hE : MatrixProductBase.getMatrixShapeForFinalTasks cfg with
        | error e =>
          have hcon : MatrixProductBase.construct cfg = Except.error e := by
            unfold MatrixProductBase.construct
            rw [if_pos hng, if_neg hne2, if_neg hc0, if_neg hc1, hE]
          constructor
          · intro _
            exact (MatrixProductBase.gms_error_iff cfg).mp ⟨e, hE⟩
          · intro _
            exact ⟨e, hcon⟩
        | ok r =>
          have hcon : MatrixProductBase.construct cfg = Except.ok r := by
            unfold MatrixProductBase.construct
            rw [if_pos hng, if_neg hne2, if_neg hc0, if_neg hc1, hE]
            by_cases ht : cfg.arg0timeseries = true
            · have ht1 : cfg.arg1timeseries = true := by
                rw [← hts]
                exact ht
              simp [ht, ht1]
            · have ht1 : ¬ cfg.arg1timeseries = true := by
                rw [← hts]
                exact ht
              simp [ht, ht1]
          constructor
          · rintro ⟨e, he⟩
            rw [hcon] at he
            exact Except.noConfusion he
          · intro hbad
            rcases (MatrixProductBase.gms_error_iff cfg).mpr hbad with ⟨e, he⟩
            rw [hE] at he
            exact Except.noConfusion he
  · rintro ⟨ha, hb, hc⟩
    unfold MatrixProductBase.construct
    rw [if_pos hng, if_neg hne2]
    rw [if_neg (by
      rintro (h | h)
      · omega
      · rw [hd0] at h
        exact Bool.false_ne_true h)]
    rw [if_neg (by
      rintro (h | h)
      · omega
      · rw [hd1] at h
        exact Bool.false_ne_true h)]
    rw [MatrixProductBase.gms_error_msg cfg ⟨ha, hb⟩ hc]

/-- A concrete mismatched rank-2 product configuration (2x3 times 4x5). -/
def cfgC5 : MPBConfig where
  nargs := 2
  arg0rank := 2
  arg1rank := 2
  arg0shape := [2, 3]
  arg1shape := [4, 5]
  arg0hasder := false
  arg1hasder := false
  arg0timeseries := false
  arg1timeseries := false
  arg0 := fun _ => 0
  arg1 := fun _ => 0
  arg0size := 6
  arg1size := 20
  natoms := 0
  ntasks := 2
  outShape1 := 5
  ostrn := 0
  nmat := 0
  label := "m"
  isAdjacencyMatrix := false
  skip_ieqj := false
  inChain := false
  noderiv := false
  arg0prodName := "A"
  arg1prodName := "B"
  arg0prodArg0Name := ""
  arg1prodArg0Name := ""
  arg0name := "a"
  arg1name := "b"

/-- Witness for C5: the mismatched 2x3 by 4x5 product fails at
construction with exactly the specified message. -/
theorem C5_construction_shape_errors_witness :
    (cfgC5.nargs = 2 ∧ cfgC5.arg0hasder = false ∧ cfgC5.arg1hasder = false ∧
      cfgC5.arg0timeseries = cfgC5.arg1timeseries) ∧
    (cfgC5.arg0rank = 2 ∧ cfgC5.arg1rank = 2 ∧
      cfgC5.arg0shape.getD 1 0 ≠ cfgC5.arg1shape.getD 0 0) ∧
    MatrixProductBase.construct cfgC5 = Except.error
      "number of columns in first matrix is not equal to number of columns in second" :=
  ⟨⟨by decide, by decide, by decide, by decide⟩, ⟨by decide, by decide, by decide⟩,
    (C5_construction_shape_errors cfgC5 (by decide) (by decide) (by decide) (by decide)).2
      ⟨by decide, by decide, by decide⟩⟩

/-! ## Claim C9: the debug bounds assertions -/

/-- **C9.**  The claim states that in a debug build every element access
with a value index at or beyond the declared number of values fails an
assertion before any buffer element is touched.  On the code this is
false: the assertions of `get`, `setValue`, `addValue`, `addDerivative`
and `setDerivative` check `ival <= values.size()` (MultiValue.h lines
153, 159, 165, 171, 177), so the out-of-bounds value index
`ival = numberOfValues` passes them - while `getDerivative` and
`updateIndex` (lines 184, 190) use the strict `ival < values.size()` and
do reject it.  Here `numberOfValues = 1` and the access index is `1`. -/
theorem C9_bounds_assertion_off_by_one :
    ((MultiValue.resized 1 1 0 0).values.length = 1) ∧
    (get_dbg (MultiValue.resized 1 1 0 0) 1 = true) ∧
    (setValue_dbg (MultiValue.resized 1 1 0 0) 1 = true) ∧
    (addValue_dbg (MultiValue.resized 1 1 0 0) 1 = true) ∧
    (addDerivative_dbg (MultiValue.resized 1 1 0 0) 1 0 = true) ∧
    (setDerivative_dbg (MultiValue.resized 1 1 0 0) 1 0 = true) ∧
    (getDerivative_dbg (MultiValue.resized 1 1 0 0) 1 0 = false) ∧
    (updateIndex_dbg (MultiValue.resized 1 1 0 0) 1 0 = false) := by
  refine ⟨by decide, by decide, by decide, by decide, by decide, by decide, by decide, by decide⟩

/-! ## Claim C7: one controller per matrix element -/

/-- Two task contexts agreeing on everything the element arithmetic
writes: the value buffer, the dense derivative buffer, the
has-derivative flags and the active-index lists. -/
def SameCore (a b : MultiValue) : Prop :=
  a.values = b.values ∧ a.derivatives = b.derivatives ∧ a.hasderiv = b.hasderiv ∧
  a.nactive = b.nactive ∧ a.active_list = b.active_list

theorem sameCore_refl (a : MultiValue) : SameCore a a := ⟨rfl, rfl, rfl, rfl, rfl⟩

theorem sameCore_trans {a b c : MultiValue} (h1 : SameCore a b) (h2 : SameCore b c) :
    SameCore a c := by
  obtain ⟨x1, x2, x3, x4, x5⟩ := h1
  obtain ⟨y1, y2, y3, y4, y5⟩ := h2
  exact ⟨x1.trans y1, x2.trans y2, x3.trans y3, x4.trans y4, x5.trans y5⟩

theorem foldl_pair_sameCore {β : Type} (f : MultiValue × ℕ → β → MultiValue × ℕ)
    (h : ∀ p b, SameCore (f p b).1 p.1) (l : List β) (p : MultiValue × ℕ) :
    SameCore (l.foldl f p).1 p.1 := by
  induction l generalizing p with
  | nil => exact sameCore_refl _
  | cons b bs ih => exact sameCore_trans (ih (f p b)) (h p b)

theorem sameCore_setNumberOfMatrixIndices (x : MultiValue) (a b : ℕ) :
    SameCore (x.setNumberOfMatrixIndices a b) x := ⟨rfl, rfl, rfl, rfl, rfl⟩

theorem sameCore_setMatrixIndex (x : MultiValue) (a b c : ℕ) :
    SameCore (x.setMatrixIndex a b c) x := ⟨rfl, rfl, rfl, rfl, rfl⟩

theorem sameCore_setNumberOfMatrixIndices_to (x : MultiValue) (a b : ℕ) (y : MultiValue)
    (h : SameCore x y) : SameCore (x.setNumberOfMatrixIndices a b) y :=
  sameCore_trans (sameCore_setNumberOfMatrixIndices x a b) h

theorem sameCore_setMatrixIndex_to (x : MultiValue) (a b c : ℕ) (y : MultiValue)
    (h : SameCore x y) : SameCore (x.setMatrixIndex a b c) y :=
  sameCore_trans (sameCore_setMatrixIndex x a b c) h

theorem foldl_pair_sameCore_to {β : Type} (f : MultiValue × ℕ → β → MultiValue × ℕ)
    (h : ∀ p b, SameCore (f p b).1 p.1) (l : List β) (p : MultiValue × ℕ) (c : MultiValue)
    (hc : SameCore p.1 c) : SameCore (l.foldl f p).1 c :=
  sameCore_trans (foldl_pair_sameCore f h l p) hc

/-- `updateCentralMatrixIndex` writes only to the matrix-index stash:
the value buffer, derivative buffer, derivative flags and active lists
are untouched. -/
theorem updateCentralMatrixIndex_sameCore (cfg : MPBConfig) (ind : ℕ) (indices : List ℕ)
    (mv : MultiValue) :
    SameCore (MatrixProductBase.updateCentralMatrixIndex cfg ind indices mv) mv := by
  have hargs : ∀ cnt : ℕ, SameCore
      ((if cfg.nargs > 0 then
          (List.range (if cfg.arg0rank = 2 then cfg.arg0shape.getD 1 0 else 1)).foldl
            (fun (p : MultiValue × ℕ) i =>
              (p.1.setMatrixIndex cfg.nmat p.2
                ((if cfg.arg0rank = 2 then cfg.arg0shape.getD 1 0 else 1) * ind + i), p.2 + 1))
            (mv, cnt)
        else (mv, cnt)).1) mv := by
    intro cnt
    by_cases ha : cfg.nargs > 0
    · rw [if_pos ha]
      refine foldl_pair_sameCore _ ?_ _ _
      intro p b
      exact ⟨rfl, rfl, rfl, rfl, rfl⟩
    · rw [if_neg ha]
      exact sameCore_refl mv
  simp only [MatrixProductBase.updateCentralMatrixIndex]
  refine sameCore_setNumberOfMatrixIndices_to _ _ _ _ ?_
  by_cases hb : cfg.natoms > 0
  · rw [if_pos hb]
    refine foldl_pair_sameCore_to _ ?_ _ _ _ ?_
    · intro p b
      exact ⟨rfl, rfl, rfl, rfl, rfl⟩
    refine foldl_pair_sameCore_to _ ?_ _ _ _ ?_
    · intro p b
      exact ⟨rfl, rfl, rfl, rfl, rfl⟩
    refine sameCore_setMatrixIndex_to _ _ _ _ _ ?_
    refine sameCore_setMatrixIndex_to _ _ _ _ _ ?_
    refine sameCore_setMatrixIndex_to _ _ _ _ _ ?_
    exact hargs _
  · rw [if_neg hb]
    exact hargs _

/-- **C7.**  In a matrix chain at most one component computes each
element: (i) a non-adjacency-matrix component whose `actionInChain()` is
true returns from its per-row `performTask` leaving the value buffer,
derivative buffer, derivative flags and active lists untouched (at most
the central-matrix-index stash is updated); (ii) an adjacency-matrix
component's per-element `performTask` returns `false` with the context
unchanged when the controller label differs from its own label. -/
theorem C7_single_controller :
    (∀ (cfg : MPBConfig) (runTask : String → ℕ → ℕ → ℕ → MultiValue → MultiValue)
        (current : ℕ) (mv : MultiValue),
      cfg.isAdjacencyMatrix = false → cfg.inChain = true →
      SameCore (MatrixProductBase.performTaskRow cfg runTask current mv) mv) ∧
    (∀ (cfg : MPBConfig) (compute : MatrixProductBase.ComputeVectorProduct)
        (controller : String) (index1 index2 : ℕ) (mv : MultiValue),
      cfg.isAdjacencyMatrix = true → controller ≠ cfg.label →
      MatrixProductBase.performTaskElem cfg compute controller index1 index2 mv
        = (false, mv)) := by
  constructor
  · intro cfg runTask current mv hadj hchain
    have hcond : (¬ cfg.isAdjacencyMatrix = true) ∧ cfg.inChain = true := by
      rw [hadj]
      exact ⟨Bool.false_ne_true, hchain⟩
    simp only [MatrixProductBase.performTaskRow]
    rw [if_pos hcond]
    by_cases h2 : (¬ cfg.noderiv = true) ∧ mv.inVectorCall = true
    · rw [if_pos h2]
      exact updateCentralMatrixIndex_sameCore cfg mv.task_index mv.indices mv
    · rw [if_neg h2]
      exact sameCore_refl mv
  · intro cfg compute controller index1 index2 mv hadj hne
    simp only [MatrixProductBase.performTaskElem]
    rw [if_pos ⟨hadj, hne⟩]

/-- A concrete in-chain non-adjacency configuration for part (i), and an
adjacency-matrix configuration for part (ii). -/
def cfgC7 : MPBConfig :=
  { cfgC8 with inChain := true }

/-- Adjacency-matrix variant used for part (ii) of the C7 witness. -/
def cfgC7b : MPBConfig :=
  { cfgC8 with isAdjacencyMatrix := true, natoms := 2 }

/-- Witness for C7 at concrete configurations. -/
theorem C7_single_controller_witness :
    (cfgC7.isAdjacencyMatrix = false ∧ cfgC7.inChain = true ∧
      SameCore
        (MatrixProductBase.performTaskRow cfgC7 (fun _ _ _ _ m => m) 0
          (MultiValue.resized 1 1 0 0))
        (MultiValue.resized 1 1 0 0)) ∧
    (cfgC7b.isAdjacencyMatrix = true ∧ "x" ≠ cfgC7b.label ∧
      MatrixProductBase.performTaskElem cfgC7b (fun _ _ _ _ m => (0, [], [], m)) "x" 0 1
          (MultiValue.resized 1 1 0 0)
        = (false, MultiValue.resized 1 1 0 0)) :=
  ⟨⟨by decide, by decide,
    C7_single_controller.1 cfgC7 (fun _ _ _ _ m => m) 0 (MultiValue.resized 1 1 0 0)
      (by decide) (by decide)⟩,
   ⟨by decide, by decide,
    C7_single_controller.2 cfgC7b (fun _ _ _ _ m => (0, [], [], m)) "x" 0 1
      (MultiValue.resized 1 1 0 0) (by decide) (by decide)⟩⟩

/-! ## Claim C1: the force scatter is the adjoint of the accumulation -/

theorem foldl_scatter (g : ℕ → ℚ) (l : List ℕ) (forces : List ℚ)
    (hn : l.Nodup) (hb : ∀ j ∈ l, j < forces.length) :
    ∀ i, i < forces.length →
      (l.foldl (fun fs j => fs.set j (fs.getD j 0 + g j)) forces).getD i 0
        = forces.getD i 0 + (if i ∈ l then g i else 0) := by
  induction l generalizing forces with
  | nil =>
    intro i hi
    simp
  | cons j js ih =>
    intro i hi
    rw [List.foldl_cons]
    have hjlt : j < forces.length := hb j (List.mem_cons_self j js)
    have hlen : (forces.set j (forces.getD j 0 + g j)).length = forces.length := by
      rw [List.length_set]
    have hb' : ∀ x ∈ js, x < (forces.set j (forces.getD j 0 + g j)).length := by
      intro x hx
      rw [hlen]
      exact hb x (List.mem_cons_of_mem j hx)
    rw [ih (forces.set j (forces.getD j 0 + g j)) (List.Nodup.of_cons hn) hb' i
      (by rw [hlen]; exact hi)]
    by_cases hij : i = j
    · subst hij
      have hnotin : i ∉ js := (List.nodup_cons.mp hn).1
      rw [getD_set_self forces _ 0 hjlt]
      simp [hnotin]
    · rw [getD_set_ne forces _ 0 (fun he => hij he.symm)]
      by_cases hmem : i ∈ js
      · simp [hmem, List.mem_cons, hij]
      · simp [hmem, List.mem_cons, hij]

/-- The generic force scatter of `apply()` /
`ActionWithMatrix::gatherForcesOnStoredValue`.  Modelled from the spec:
for an output value `ival` carrying the external force `F`, walk the
value's active-index list and add `F * storedDerivative(ival, j)` to the
force slot addressed by each active index `j` (spec 4.5); the
implementations (`ActionWithValue::gatherForces`,
`ActionWithMatrix::gatherForcesOnStoredValue`, declared at
ActionWithMatrix.h lines 86-88) are not among the sources. -/
def gatherForces (F : ℚ) (mv : MultiValue) (ival : ℕ) (forces : List ℚ) : List ℚ :=
  (mv.activeList ival).foldl
    (fun fs j => fs.set j (fs.getD j 0 + F * mv.getDerivative ival j)) forces

/-- **C1.**  When the active-index list of the forced value is
duplicate-free (the engine's caller contract) and its entries address
valid force slots, the scatter adds exactly one contribution
`F * storedDerivative(ival, j)` to every active index `j` and adds
nothing to any other slot: the scatter is the exact adjoint of the
derivative accumulation. -/
theorem C1_force_scatter_adjoint (F : ℚ) (mv : MultiValue) (ival : ℕ) (forces : List ℚ)
    (hn : (mv.activeList ival).Nodup)
    (hb : ∀ j ∈ mv.activeList ival, j < forces.length) :
    ∀ i, i < forces.length →
      (gatherForces F mv ival forces).getD i 0
        = forces.getD i 0 +
          (if i ∈ mv.activeList ival then F * mv.getDerivative ival i else 0) :=
  foldl_scatter (fun j => F * mv.getDerivative ival j) (mv.activeList ival) forces hn hb

/-- Witness for C1: one registered derivative (value 2 at index 0 of
two), force 3, initial forces `[1, 1]`: slot 0 receives exactly
`1 + 3 * 2 = 7`, slot 1 stays `1`. -/
theorem C1_force_scatter_adjoint_witness :
    ((((MultiValue.resized 1 2 0 0).addDerivative 0 0 2).updateIndex 0 0).activeList 0).Nodup ∧
    (∀ j ∈ (((MultiValue.resized 1 2 0 0).addDerivative 0 0 2).updateIndex 0 0).activeList 0,
      j < ([1, 1] : List ℚ).length) ∧
    ((gatherForces 3 (((MultiValue.resized 1 2 0 0).addDerivative 0 0 2).updateIndex 0 0) 0
        [1, 1]).getD 0 0
      = ([1, 1] : List ℚ).getD 0 0 +
        (if 0 ∈ (((MultiValue.resized 1 2 0 0).addDerivative 0 0 2).updateIndex 0 0).activeList 0
          then 3 * (((MultiValue.resized 1 2 0 0).addDerivative 0 0 2).updateIndex
            0 0).getDerivative 0 0 else 0)) :=
  ⟨by decide, by decide,
    C1_force_scatter_adjoint 3 (((MultiValue.resized 1 2 0 0).addDerivative 0 0 2).updateIndex 0 0)
      0 [1, 1] (by decide) (by decide) 0 (by decide)⟩

/-! ## Claim C2: the zero-skip rule -/

/-- Two task contexts agreeing on the value buffer, the rerun flag and
the stash-count channel - the quantities the zero-skip analysis tracks. -/
def SameAux (a b : MultiValue) : Prop :=
  a.values = b.values ∧ a.matrix_rerun = b.matrix_rerun ∧
  a.nmatrix_indices = b.nmatrix_indices

theorem sameAux_refl (a : MultiValue) : SameAux a a := ⟨rfl, rfl, rfl⟩

theorem sameAux_trans {a b c : MultiValue} (h1 : SameAux a b) (h2 : SameAux b c) :
    SameAux a c := by
  obtain ⟨x1, x2, x3⟩ := h1
  obtain ⟨y1, y2, y3⟩ := h2
  exact ⟨x1.trans y1, x2.trans y2, x3.trans y3⟩

theorem sameAux_updateIndex (m : MultiValue) (v j : ℕ) : SameAux (m.updateIndex v j) m := by
  unfold MultiValue.updateIndex
  split <;> exact ⟨rfl, rfl, rfl⟩

theorem sameAux_addDerivative (m : MultiValue) (v j : ℕ) (d : ℚ) :
    SameAux (m.addDerivative v j d) m := ⟨rfl, rfl, rfl⟩

theorem sameAux_setMatrixIndex (m : MultiValue) (a b c : ℕ) :
    SameAux (m.setMatrixIndex a b c) m := ⟨rfl, rfl, rfl⟩

theorem setMatrixIndex_values (m : MultiValue) (a b c : ℕ) :
    (m.setMatrixIndex a b c).values = m.values := rfl

theorem setMatrixIndex_matrix_rerun (m : MultiValue) (a b c : ℕ) :
    (m.setMatrixIndex a b c).matrix_rerun = m.matrix_rerun := rfl

theorem setMatrixIndex_nmatrix_indices (m : MultiValue) (a b c : ℕ) :
    (m.setMatrixIndex a b c).nmatrix_indices = m.nmatrix_indices := rfl

theorem setNumberOfMatrixIndices_values (m : MultiValue) (a b : ℕ) :
    (m.setNumberOfMatrixIndices a b).values = m.values := rfl

theorem setNumberOfMatrixIndices_matrix_rerun (m : MultiValue) (a b : ℕ) :
    (m.setNumberOfMatrixIndices a b).matrix_rerun = m.matrix_rerun := rfl

theorem setNumberOfMatrixIndices_nmatrix_indices (m : MultiValue) (a b : ℕ) :
    (m.setNumberOfMatrixIndices a b).nmatrix_indices = m.nmatrix_indices.set a b := rfl

theorem foldl_sameAux {β : Type} (f : MultiValue → β → MultiValue)
    (h : ∀ m b, SameAux (f m b) m) (l : List β) (m : MultiValue) :
    SameAux (l.foldl f m) m := by
  induction l generalizing m with
  | nil => exact sameAux_refl m
  | cons b bs ih => exact sameAux_trans (ih (f m b)) (h m b)

/-- The derivative/stash loop of the per-element task, run outside a
matrix rerun: it preserves the value buffer, the rerun flag and the
stash-count channel, and advances its loop counter once per argument. -/
theorem argLoop_fold (cfg : MPBConfig) (index1 ind2 sss nargs jind_start : ℕ)
    (der1 der2 : List ℚ) (l : List ℕ) (p : MultiValue × ℕ)
    (hr : p.1.matrix_rerun = false) :
    SameAux ((l.foldl (MatrixProductBase.argLoopStep cfg index1 ind2 sss nargs jind_start
        der1 der2) p).1) p.1 ∧
    (l.foldl (MatrixProductBase.argLoopStep cfg index1 ind2 sss nargs jind_start der1 der2)
        p).2 = p.2 + l.length := by
  induction l generalizing p with
  | nil => exact ⟨sameAux_refl _, rfl⟩
  | cons b bs ih =>
    rw [List.foldl_cons]
    have hstep : SameAux
        ((MatrixProductBase.argLoopStep cfg index1 ind2 sss nargs jind_start der1 der2 p b).1)
          p.1 ∧
        (MatrixProductBase.argLoopStep cfg index1 ind2 sss nargs jind_start der1 der2 p b).2
          = p.2 + 1 := by
      simp only [MatrixProductBase.argLoopStep]
      have hmd : SameAux
          ((((p.1.addDerivative cfg.ostrn (nargs * index1 + b) (der1.getD b 0)).updateIndex
              cfg.ostrn (nargs * index1 + b)).addDerivative cfg.ostrn
              (jind_start + b * sss + ind2) (der2.getD b 0)).updateIndex cfg.ostrn
            (jind_start + b * sss + ind2)) p.1 :=
        sameAux_trans (sameAux_trans (sameAux_trans (sameAux_updateIndex _ _ _)
          (sameAux_addDerivative _ _ _ _)) (sameAux_updateIndex _ _ _))
          (sameAux_addDerivative _ _ _ _)
      have hrr : ((((p.1.addDerivative cfg.ostrn (nargs * index1 + b)
          (der1.getD b 0)).updateIndex cfg.ostrn (nargs * index1 + b)).addDerivative cfg.ostrn
          (jind_start + b * sss + ind2) (der2.getD b 0)).updateIndex cfg.ostrn
          (jind_start + b * sss + ind2)).inMatrixRerun = false := by
        show _ = false
        unfold MultiValue.inMatrixRerun
        rw [hmd.2.1, hr]
      rw [if_pos (by rw [hrr]; exact Bool.false_ne_true)]
      exact ⟨sameAux_trans (sameAux_setMatrixIndex _ _ _ _) hmd, rfl⟩
    have hq := ih (MatrixProductBase.argLoopStep cfg index1 ind2 sss nargs jind_start
        der1 der2 p b) (by rw [hstep.1.2.1]; exact hr)
    refine ⟨sameAux_trans hq.1 hstep.1, ?_⟩
    rw [hq.2, hstep.2, List.length_cons]
    omega

theorem getD_set_val {α : Type} (l : List α) (i : ℕ) (a : α) : (l.set i a).getD i a = a := by
  by_cases h : i < l.length
  · exact getD_set_self l a a h
  · rw [List.set_eq_of_length_le (Nat.le_of_not_lt h)]
    rw [List.getD_eq_getElem?_getD, List.getElem?_eq_none (Nat.le_of_not_lt h)]
    rfl

/-- `updateAtomicIndices` outside a matrix rerun: the value buffer and
the rerun flag are untouched, and the matrix-index stash count of the
output grows by exactly the 3 entries for atom `index2`. -/
theorem sameAux_updateIndex_to (m : MultiValue) (v j : ℕ) (c : MultiValue)
    (h : SameAux m c) : SameAux (m.updateIndex v j) c :=
  sameAux_trans (sameAux_updateIndex m v j) h

theorem foldl_sameAux_to {β : Type} (f : MultiValue → β → MultiValue)
    (h : ∀ m b, SameAux (f m b) m) (l : List β) (m : MultiValue) (c : MultiValue)
    (hc : SameAux m c) : SameAux (l.foldl f m) c :=
  sameAux_trans (foldl_sameAux f h l m) hc

/-- The active-index half of `updateAtomicIndices` touches neither the
value buffer, nor the rerun flag, nor the stash-count channel. -/
theorem updateAtomicIndicesActive_sameAux (cfg : MPBConfig) (i1 i2 : ℕ) (mv : MultiValue) :
    SameAux (MatrixProductBase.updateAtomicIndicesActive cfg i1 i2 mv) mv := by
  simp only [MatrixProductBase.updateAtomicIndicesActive]
  refine foldl_sameAux_to _ ?_ _ _ _ ?_
  · intro m b
    exact sameAux_updateIndex _ _ _
  refine foldl_sameAux_to _ ?_ _ _ _ ?_
  · intro m b
    exact sameAux_trans (sameAux_trans (sameAux_updateIndex _ _ _)
      (sameAux_updateIndex _ _ _)) (sameAux_updateIndex _ _ _)
  refine sameAux_updateIndex_to _ _ _ _ ?_
  refine sameAux_updateIndex_to _ _ _ _ ?_
  refine sameAux_updateIndex_to _ _ _ _ ?_
  refine sameAux_updateIndex_to _ _ _ _ ?_
  refine sameAux_updateIndex_to _ _ _ _ ?_
  refine sameAux_updateIndex_to _ _ _ _ ?_
  exact sameAux_refl mv

/-- `updateAtomicIndices` outside a matrix rerun: the value buffer and
the rerun flag are untouched, and the matrix-index stash count of the
output grows by exactly the 3 entries for atom `index2`. -/
theorem updateAtomicIndices_effect (cfg : MPBConfig) (i1 i2 : ℕ) (mv : MultiValue)
    (hr : mv.matrix_rerun = false) (hnm : cfg.nmat < mv.nmatrix_indices.length) :
    (MatrixProductBase.updateAtomicIndices cfg i1 i2 mv).values = mv.values ∧
    (MatrixProductBase.updateAtomicIndices cfg i1 i2 mv).matrix_rerun = false ∧
    (MatrixProductBase.updateAtomicIndices cfg i1 i2 mv).nmatrix_indices.length
      = mv.nmatrix_indices.length ∧
    (MatrixProductBase.updateAtomicIndices cfg i1 i2 mv).getNumberOfMatrixIndices cfg.nmat
      = mv.getNumberOfMatrixIndices cfg.nmat + 3 := by
  have hA : SameAux (MatrixProductBase.updateAtomicIndicesActive cfg i1 i2 mv) mv :=
    updateAtomicIndicesActive_sameAux cfg i1 i2 mv
  have hrr : (MatrixProductBase.updateAtomicIndicesActive cfg i1 i2 mv).inMatrixRerun
      = false := by
    unfold MultiValue.inMatrixRerun
    rw [hA.2.1, hr]
  have hcnt : (MatrixProductBase.updateAtomicIndicesActive cfg i1 i2 mv).getNumberOfMatrixIndices
      cfg.nmat = mv.getNumberOfMatrixIndices cfg.nmat := by
    unfold MultiValue.getNumberOfMatrixIndices
    rw [hA.2.2]
  have hlen4 : (MatrixProductBase.updateAtomicIndicesActive cfg i1 i2 mv).nmatrix_indices.length
      = mv.nmatrix_indices.length := by
    rw [hA.2.2]
  simp only [MatrixProductBase.updateAtomicIndices]
  rw [if_pos (by rw [hrr]; exact Bool.false_ne_true)]
  refine ⟨?_, ?_, ?_, ?_⟩
  · simp only [setNumberOfMatrixIndices_values, setMatrixIndex_values]
    exact hA.1
  · simp only [setNumberOfMatrixIndices_matrix_rerun, setMatrixIndex_matrix_rerun]
    rw [hA.2.1, hr]
  · simp only [setNumberOfMatrixIndices_nmatrix_indices, setMatrixIndex_nmatrix_indices]
    rw [List.length_set, hlen4]
  · simp only [MultiValue.getNumberOfMatrixIndices, setNumberOfMatrixIndices_nmatrix_indices,
      setMatrixIndex_nmatrix_indices]
    rw [getD_set_self _ _ 0 (by rw [hlen4]; exact hnm)]
    rw [hA.2.2]
theorem clear_values (mv : MultiValue) (i : ℕ) : (mv.clear i).values = mv.values.set i 0 := rfl

theorem clear_nactive (mv : MultiValue) (i : ℕ) : (mv.clear i).nactive = mv.nactive.set i 0 := rfl

theorem clear_nmatrix_indices (mv : MultiValue) (i : ℕ) :
    (mv.clear i).nmatrix_indices = mv.nmatrix_indices := rfl

theorem setValue_values (mv : MultiValue) (i : ℕ) (v : ℚ) :
    (mv.setValue i v).values = mv.values.set i v := rfl

theorem setValue_matrix_rerun (mv : MultiValue) (i : ℕ) (v : ℚ) :
    (mv.setValue i v).matrix_rerun = mv.matrix_rerun := rfl

theorem setValue_nmatrix_indices (mv : MultiValue) (i : ℕ) (v : ℚ) :
    (mv.setValue i v).nmatrix_indices = mv.nmatrix_indices := rfl

/-- **C2 (amended).**  For an atomistic matrix component computing
derivatives, outside a matrix rerun: when the element magnitude is below
`epsilon`, `performTask` returns `false`, stores no value (the output
stream slot is zero and its active list empty after the element), and
creates **no argument-derivative stash entries - but the atomic
bookkeeping run (`updateAtomicIndices`) does append exactly the 3 stash
entries for the bond atom's position derivatives**, so the stash count
grows by 3 (not 0, as the claim states); at or above `epsilon` the value
is stored and the stash advances by the `nargs` argument entries plus
the same 3 atomic entries. -/
theorem C2_zero_skip (cfg : MPBConfig) (compute : MatrixProductBase.ComputeVectorProduct)
    (controller : String) (index1 index2 : ℕ) (mv : MultiValue)
    (hguard : ¬ (cfg.isAdjacencyMatrix = true ∧ controller ≠ cfg.label))
    (hnd : cfg.noderiv = false)
    (hatoms : cfg.natoms > 0)
    (hrerun :
      (MatrixProductBase.elemCompute cfg compute index1 index2 mv).2.2.2.matrix_rerun = false)
    (hnm : cfg.nmat
      < (MatrixProductBase.elemCompute cfg compute index1 index2 mv).2.2.2.nmatrix_indices.length)
    (hostrn : cfg.ostrn
      < (MatrixProductBase.elemCompute cfg compute index1 index2 mv).2.2.2.values.length) :
    (qabs (MatrixProductBase.elemCompute cfg compute index1 index2 mv).1 < epsilon →
      (MatrixProductBase.performTaskElem cfg compute controller index1 index2 mv).1 = false ∧
      (MatrixProductBase.performTaskElem cfg compute controller index1 index2
          mv).2.getNumberOfMatrixIndices cfg.nmat
        = (MatrixProductBase.elemCompute cfg compute index1 index2
            mv).2.2.2.getNumberOfMatrixIndices cfg.nmat + 3 ∧
      (MatrixProductBase.performTaskElem cfg compute controller index1 index2
          mv).2.values.getD cfg.ostrn 0 = 0 ∧
      (MatrixProductBase.performTaskElem cfg compute controller index1 index2
          mv).2.getNumberActive cfg.ostrn = 0) ∧
    (¬ qabs (MatrixProductBase.elemCompute cfg compute index1 index2 mv).1 < epsilon →
      (MatrixProductBase.performTaskElem cfg compute controller index1 index2 mv).1 = true ∧
      (MatrixProductBase.performTaskElem cfg compute controller index1 index2
          mv).2.values.getD cfg.ostrn 0
        = (MatrixProductBase.elemCompute cfg compute index1 index2 mv).1 ∧
      (MatrixProductBase.performTaskElem cfg compute controller index1 index2
          mv).2.getNumberOfMatrixIndices cfg.nmat
        = (MatrixProductBase.elemCompute cfg compute index1 index2
            mv).2.2.2.getNumberOfMatrixIndices cfg.nmat + MatrixProductBase.elemNargs cfg + 3) := by
  have heff := updateAtomicIndices_effect cfg index1 index2
    (MatrixProductBase.elemCompute cfg compute index1 index2 mv).2.2.2 hrerun hnm
  constructor
  · intro hlt
    simp only [MatrixProductBase.performTaskElem]
    rw [if_neg hguard, if_pos hlt, if_pos (by rw [hnd]; exact Bool.false_ne_true), if_pos hatoms]
    refine ⟨rfl, ?_, ?_, ?_⟩
    · show (MatrixProductBase.clearMatrixElements cfg _).getNumberOfMatrixIndices cfg.nmat = _
      unfold MatrixProductBase.clearMatrixElements MultiValue.getNumberOfMatrixIndices
      rw [clear_nmatrix_indices]
      exact heff.2.2.2
    · show (MatrixProductBase.clearMatrixElements cfg _).values.getD cfg.ostrn 0 = 0
      unfold MatrixProductBase.clearMatrixElements
      rw [clear_values]
      exact getD_set_val _ cfg.ostrn 0
    · show (MatrixProductBase.clearMatrixElements cfg _).getNumberActive cfg.ostrn = 0
      unfold MatrixProductBase.clearMatrixElements MultiValue.getNumberActive
      rw [clear_nactive]
      exact getD_set_val _ cfg.ostrn 0
  · intro hge
    simp only [MatrixProductBase.performTaskElem]
    rw [if_neg hguard, if_neg hge, if_neg (by rw [hnd]; exact Bool.false_ne_true), if_pos hatoms]
    have hst := argLoop_fold cfg index1 (MatrixProductBase.elemInd2 cfg index2)
      (MatrixProductBase.elemSss cfg) (MatrixProductBase.elemNargs cfg)
      (if cfg.nargs > 0 then cfg.arg0size else 0)
      (MatrixProductBase.elemCompute cfg compute index1 index2 mv).2.1
      (MatrixProductBase.elemCompute cfg compute index1 index2 mv).2.2.1
      (List.range (MatrixProductBase.elemNargs cfg))
      ((MatrixProductBase.elemCompute cfg compute index1 index2 mv).2.2.2.setValue cfg.ostrn
          (MatrixProductBase.elemCompute cfg compute index1 index2 mv).1,
        ((MatrixProductBase.elemCompute cfg compute index1 index2 mv).2.2.2.setValue cfg.ostrn
          (MatrixProductBase.elemCompute cfg compute index1 index2
            mv).1).getNumberOfMatrixIndices cfg.nmat)
      (by rw [setValue_matrix_rerun]; exact hrerun)
    set st := (List.range (MatrixProductBase.elemNargs cfg)).foldl
      (MatrixProductBase.argLoopStep cfg index1 (MatrixProductBase.elemInd2 cfg index2)
        (MatrixProductBase.elemSss cfg) (MatrixProductBase.elemNargs cfg)
        (if cfg.nargs > 0 then cfg.arg0size else 0)
        (MatrixProductBase.elemCompute cfg compute index1 index2 mv).2.1
        (MatrixProductBase.elemCompute cfg compute index1 index2 mv).2.2.1)
      ((MatrixProductBase.elemCompute cfg compute index1 index2 mv).2.2.2.setValue cfg.ostrn
          (MatrixProductBase.elemCompute cfg compute index1 index2 mv).1,
        ((MatrixProductBase.elemCompute cfg compute index1 index2 mv).2.2.2.setValue cfg.ostrn
          (MatrixProductBase.elemCompute cfg compute index1 index2
            mv).1).getNumberOfMatrixIndices cfg.nmat) with hstdef
    have hm2rerun : (st.1.setNumberOfMatrixIndices cfg.nmat st.2).matrix_rerun = false := by
      rw [setNumberOfMatrixIndices_matrix_rerun, hst.1.2.1, setValue_matrix_rerun]
      exact hrerun
    have hm2len : cfg.nmat
        < (st.1.setNumberOfMatrixIndices cfg.nmat st.2).nmatrix_indices.length := by
      rw [setNumberOfMatrixIndices_nmatrix_indices, List.length_set, hst.1.2.2,
        setValue_nmatrix_indices]
      exact hnm
    have heff2 := updateAtomicIndices_effect cfg index1 index2
      (st.1.setNumberOfMatrixIndices cfg.nmat st.2) hm2rerun hm2len
    refine ⟨rfl, ?_, ?_⟩
    · rw [heff2.1, setNumberOfMatrixIndices_values, hst.1.1, setValue_values]
      exact getD_set_self _ _ 0 hostrn
    · rw [heff2.2.2.2]
      have hm2cnt : (st.1.setNumberOfMatrixIndices cfg.nmat st.2).getNumberOfMatrixIndices
          cfg.nmat = st.2 := by
        unfold MultiValue.getNumberOfMatrixIndices
        rw [setNumberOfMatrixIndices_nmatrix_indices]
        refine getD_set_self _ _ 0 ?_
        rw [hst.1.2.2, setValue_nmatrix_indices]
        exact hnm
      rw [hm2cnt, hst.2, List.length_range]
      have hm1cnt : ((MatrixProductBase.elemCompute cfg compute index1 index2
          mv).2.2.2.setValue cfg.ostrn
            (MatrixProductBase.elemCompute cfg compute index1 index2
              mv).1).getNumberOfMatrixIndices cfg.nmat
          = (MatrixProductBase.elemCompute cfg compute index1 index2
              mv).2.2.2.getNumberOfMatrixIndices cfg.nmat := by
        unfold MultiValue.getNumberOfMatrixIndices
        rw [setValue_nmatrix_indices]
      rw [hm1cnt]

/-- A concrete atomistic (adjacency-style) matrix configuration with two
atoms and no arguments. -/
def cfgC2 : MPBConfig :=
  { cfgC8 with nargs := 0, isAdjacencyMatrix := true, natoms := 2, label := "a" }

/-- A `computeVectorProduct` leaf returning a zero element and leaving
the context untouched. -/
def computeZero : MatrixProductBase.ComputeVectorProduct :=
  fun _ _ _ _ m => (0, [], [], m)

/-- Concrete task context for the C2 instances: one value, one
derivative, one stash channel of capacity 8. -/
def mvC2 : MultiValue := MultiValue.resized 1 1 1 8

/-- **C2, counterexample.**  The claim states that a below-epsilon
element creates **no** matrix-index-stash entry.  On the code, the
below-epsilon branch calls `updateAtomicIndices`
(MatrixProductBase.cpp line 283), whose `!inMatrixRerun()` block (lines
258-263) appends the 3 stash entries for atom `index2`'s position
derivatives: for the zero-valued element `(0,1)` of a two-atom
adjacency-style component, the stash count afterwards is 3, not 0. -/
theorem C2_counterexample :
    (qabs (MatrixProductBase.elemCompute cfgC2 computeZero 0 1 mvC2).1 < epsilon) ∧
    ((MatrixProductBase.performTaskElem cfgC2 computeZero "a" 0 1 mvC2).1 = false) ∧
    ((MatrixProductBase.performTaskElem cfgC2 computeZero "a" 0 1
        mvC2).2.getNumberOfMatrixIndices 0 = 3) ∧
    ((MatrixProductBase.performTaskElem cfgC2 computeZero "a" 0 1 mvC2).2.getMatrixIndex 0 0
        = 3) ∧
    ((MatrixProductBase.performTaskElem cfgC2 computeZero "a" 0 1 mvC2).2.getMatrixIndex 0 1
        = 4) ∧
    ((MatrixProductBase.performTaskElem cfgC2 computeZero "a" 0 1 mvC2).2.getMatrixIndex 0 2
        = 5) ∧
    ¬ ((MatrixProductBase.performTaskElem cfgC2 computeZero "a" 0 1
        mvC2).2.getNumberOfMatrixIndices 0 = 0) := by
  refine ⟨by decide, by decide, by decide, by decide, by decide, by decide, by decide⟩

/-- Witness for C2 at the concrete below-epsilon instance. -/
theorem C2_zero_skip_witness :
    (¬ (cfgC2.isAdjacencyMatrix = true ∧ "a" ≠ cfgC2.label)) ∧
    (cfgC2.noderiv = false) ∧ (cfgC2.natoms > 0) ∧
    ((MatrixProductBase.elemCompute cfgC2 computeZero 0 1 mvC2).2.2.2.matrix_rerun = false) ∧
    (cfgC2.nmat
      < (MatrixProductBase.elemCompute cfgC2 computeZero 0 1 mvC2).2.2.2.nmatrix_indices.length) ∧
    (cfgC2.ostrn
      < (MatrixProductBase.elemCompute cfgC2 computeZero 0 1 mvC2).2.2.2.values.length) ∧
    (qabs (MatrixProductBase.elemCompute cfgC2 computeZero 0 1 mvC2).1 < epsilon) ∧
    ((MatrixProductBase.performTaskElem cfgC2 computeZero "a" 0 1 mvC2).1 = false ∧
      (MatrixProductBase.performTaskElem cfgC2 computeZero "a" 0 1
          mvC2).2.getNumberOfMatrixIndices cfgC2.nmat
        = (MatrixProductBase.elemCompute cfgC2 computeZero 0 1
            mvC2).2.2.2.getNumberOfMatrixIndices cfgC2.nmat + 3 ∧
      (MatrixProductBase.performTaskElem cfgC2 computeZero "a" 0 1
          mvC2).2.values.getD cfgC2.ostrn 0 = 0 ∧
      (MatrixProductBase.performTaskElem cfgC2 computeZero "a" 0 1
          mvC2).2.getNumberActive cfgC2.ostrn = 0) :=
  ⟨by decide, by decide, by decide, by decide, by decide, by decide, by decide,
    (C2_zero_skip cfgC2 computeZero "a" 0 1 mvC2 (by decide) (by decide) (by decide) (by decide)
      (by decide) (by decide)).1 (by decide)⟩


/-! ## Claim C10: the MultiColvarTemplate derivative transfer -/

namespace MultiColvarTemplate

/-- Static context of `MultiColvarTemplate<CV>::performTask`
(MultiColvarTemplate.h lines 240-322): the number of atom blocks
(`ablocks.size()`), the block contents (`ablocks[i][task_index]`, read
as a total function), the atom count (`getNumberOfAtoms()`) and the
component count (`getNumberOfComponents()`). -/
structure MCTConfig where
  nblocks : ℕ
  ablocks : ℕ → ℕ → ℕ
  natoms : ℕ
  ncomponents : ℕ

/-- The duplicate scan of MultiColvarTemplate.h lines 302-305: `newi`
is true iff no earlier block holds the same atom as block `i` for this
task. -/
def newi (cfg : MCTConfig) (task i : ℕ) : Bool :=
  (List.range i).all (fun j => !(cfg.ablocks j task == cfg.ablocks i task))

/-- The `MultiValue` calls issued by one iteration `i` of the atom loop
(MultiColvarTemplate.h lines 294-312): with
`base = 3*ablocks[i][task_index]`, first
`addDerivative(j, base+c, derivs[j][i][c])` for every component `j` and
coordinate `c`, then - only when `newi` - `updateIndex(j, base+c)` for
every component `j` and coordinate `c`. -/
def blockOps (cfg : MCTConfig) (task : ℕ) (derivs : ℕ → ℕ → ℕ → ℚ) (i : ℕ) : List MVOp :=
  ((List.range cfg.ncomponents).flatMap (fun j =>
    [MVOp.addDer j (3 * cfg.ablocks i task) (derivs j i 0),
     MVOp.addDer j (3 * cfg.ablocks i task + 1) (derivs j i 1),
     MVOp.addDer j (3 * cfg.ablocks i task + 2) (derivs j i 2)])) ++
  (if newi cfg task i then
    (List.range cfg.ncomponents).flatMap (fun j =>
      [MVOp.updIdx j (3 * cfg.ablocks i task),
       MVOp.updIdx j (3 * cfg.ablocks i task + 1),
       MVOp.updIdx j (3 * cfg.ablocks i task + 2)])
   else [])

/-- The whole atom loop (MultiColvarTemplate.h lines 294-312). -/
def atomOps (cfg : MCTConfig) (task : ℕ) (derivs : ℕ → ℕ → ℕ → ℚ) : List MVOp :=
  (List.range cfg.nblocks).flatMap (blockOps cfg task derivs)

/-- The virial loop (MultiColvarTemplate.h lines 313-321): with
`nvir = 3*getNumberOfAtoms()`, for every component `j` and tensor entry
`(i,k)`, `addDerivative(j, nvir+3*i+k, virial[j][i][k])` immediately
followed by `updateIndex(j, nvir+3*i+k)`. -/
def virialOps (cfg : MCTConfig) (virial : ℕ → ℕ → ℕ → ℚ) : List MVOp :=
  (List.range cfg.ncomponents).flatMap (fun j =>
    (List.range 3).flatMap (fun i =>
      (List.range 3).flatMap (fun k =>
        [MVOp.addDer j (3 * cfg.natoms + 3 * i + k) (virial j i k),
         MVOp.updIdx j (3 * cfg.natoms + 3 * i + k)])))

/-- The `MultiValue` call sequence of
`MultiColvarTemplate<CV>::performTask` once `calculateCV` has produced
`values`, `derivs` and `virial` (MultiColvarTemplate.h lines 289-321):
`setValue(i, values[i])` for each component, then - unless
`doNotCalculateDerivatives()` - the atom loop followed by the virial
loop. -/
def performTaskOps (cfg : MCTConfig) (task : ℕ) (values : List ℚ)
    (derivs virial : ℕ → ℕ → ℕ → ℚ) (noderiv : Bool) : List MVOp :=
  ((List.range values.length).map (fun i => MVOp.setVal i (values.getD i 0))) ++
  (if noderiv then [] else atomOps cfg task derivs ++ virialOps cfg virial)

/-- `MultiColvarTemplate<CV>::performTask` acting on the task context
(MultiColvarTemplate.h lines 289-321). -/
def performTask (cfg : MCTConfig) (task : ℕ) (values : List ℚ)
    (derivs virial : ℕ → ℕ → ℕ → ℚ) (noderiv : Bool) (mv : MultiValue) : MultiValue :=
  applyOps mv (performTaskOps cfg task values derivs virial noderiv)

/-- The `updateIndex` pairs issued by iteration `i` of the atom loop. -/
def blockUpdPairs (cfg : MCTConfig) (task i : ℕ) : List (ℕ × ℕ) :=
  if newi cfg task i then
    (List.range cfg.ncomponents).flatMap (fun j =>
      [(j, 3 * cfg.ablocks i task), (j, 3 * cfg.ablocks i task + 1),
       (j, 3 * cfg.ablocks i task + 2)])
  else []

/-- The `updateIndex` pairs issued by the whole atom loop. -/
def atomUpdPairs (cfg : MCTConfig) (task : ℕ) : List (ℕ × ℕ) :=
  (List.range cfg.nblocks).flatMap (blockUpdPairs cfg task)

/-- The `updateIndex` pairs issued by the virial loop. -/
def virialUpdPairs (cfg : MCTConfig) : List (ℕ × ℕ) :=
  (List.range cfg.ncomponents).flatMap (fun j =>
    (List.range 3).flatMap (fun i =>
      (List.range 3).flatMap (fun k => [(j, 3 * cfg.natoms + 3 * i + k)])))

theorem updPairs_append (l1 l2 : List MVOp) :
    updPairs (l1 ++ l2) = updPairs l1 ++ updPairs l2 := by
  simp [updPairs, List.filterMap_append]

theorem updPairs_flatMap {α : Type} (l : List α) (g : α → List MVOp) :
    updPairs (l.flatMap g) = l.flatMap (fun a => updPairs (g a)) :=
  List.filterMap_flatMap l g MVOp.updPair

theorem filterMap_eq_nil_of_none {α β : Type} (l : List α) (f : α → Option β)
    (h : ∀ a ∈ l, f a = none) : l.filterMap f = [] := by
  induction l with
  | nil => rfl
  | cons a t ih =>
    rw [List.filterMap_cons, h a (List.mem_cons_self a t)]
    exact ih (fun b hb => h b (List.mem_cons_of_mem a hb))

theorem updPairs_map_setVal (values : List ℚ) :
    updPairs ((List.range values.length).map (fun i => MVOp.setVal i (values.getD i 0))) = [] := by
  unfold updPairs
  apply filterMap_eq_nil_of_none
  intro op hop
  rcases List.mem_map.mp hop with ⟨i, _, rfl⟩
  rfl

theorem updPairs_blockOps (cfg : MCTConfig) (task : ℕ) (derivs : ℕ → ℕ → ℕ → ℚ) (i : ℕ) :
    updPairs (blockOps cfg task derivs i) = blockUpdPairs cfg task i := by
  unfold blockOps blockUpdPairs
  rw [updPairs_append]
  have h1 : updPairs ((List.range cfg.ncomponents).flatMap (fun j =>
      [MVOp.addDer j (3 * cfg.ablocks i task) (derivs j i 0),
       MVOp.addDer j (3 * cfg.ablocks i task + 1) (derivs j i 1),
       MVOp.addDer j (3 * cfg.ablocks i task + 2) (derivs j i 2)])) = [] := by
    unfold updPairs
    apply filterMap_eq_nil_of_none
    intro op hop
    rcases List.mem_flatMap.mp hop with ⟨j, _, hop2⟩
    rcases (by simpa using hop2 :
        op = MVOp.addDer j (3 * cfg.ablocks i task) (derivs j i 0) ∨
        op = MVOp.addDer j (3 * cfg.ablocks i task + 1) (derivs j i 1) ∨
        op = MVOp.addDer j (3 * cfg.ablocks i task + 2) (derivs j i 2)) with h | h | h <;>
      (subst h; rfl)
  rw [h1, List.nil_append]
  by_cases h : newi cfg task i
  · rw [if_pos h, if_pos h, updPairs_flatMap]
    rfl
  · rw [if_neg h, if_neg h]
    rfl

theorem updPairs_atomOps (cfg : MCTConfig) (task : ℕ) (derivs : ℕ → ℕ → ℕ → ℚ) :
    updPairs (atomOps cfg task derivs) = atomUpdPairs cfg task := by
  unfold atomOps atomUpdPairs
  rw [updPairs_flatMap]
  congr 1
  funext i
  exact updPairs_blockOps cfg task derivs i

theorem updPairs_virialOps (cfg : MCTConfig) (virial : ℕ → ℕ → ℕ → ℚ) :
    updPairs (virialOps cfg virial) = virialUpdPairs cfg := by
  unfold virialOps virialUpdPairs
  simp only [updPairs_flatMap]
  rfl

theorem updPairs_performTaskOps (cfg : MCTConfig) (task : ℕ) (values : List ℚ)
    (derivs virial : ℕ → ℕ → ℕ → ℚ) :
    updPairs (performTaskOps cfg task values derivs virial false)
      = atomUpdPairs cfg task ++ virialUpdPairs cfg := by
  unfold performTaskOps
  rw [if_neg Bool.false_ne_true, updPairs_append, updPairs_map_setVal, List.nil_append,
    updPairs_append, updPairs_atomOps, updPairs_virialOps]

/-- `newi` unfolded: block `i` is the first occurrence of its atom. -/
theorem newi_iff (cfg : MCTConfig) (task i : ℕ) :
    newi cfg task i = true ↔ ∀ j, j < i → cfg.ablocks j task ≠ cfg.ablocks i task := by
  unfold newi
  rw [List.all_eq_true]
  constructor
  · intro h j hj
    simpa using h j (List.mem_range.mpr hj)
  · intro h j hj
    simpa using h j (List.mem_range.mp hj)

theorem pairwise_range (n : ℕ) (R : ℕ → ℕ → Prop)
    (h : ∀ i j, i < j → j < n → R i j) : (List.range n).Pairwise R := by
  induction n with
  | zero => simp
  | succ m ih =>
    rw [List.range_succ, List.pairwise_append]
    refine ⟨ih (fun i j hij hj => h i j hij (Nat.lt_succ_of_lt hj)), by simp, ?_⟩
    intro a ha b hb
    rw [List.mem_singleton.mp hb]
    exact h a m (List.mem_range.mp ha) (Nat.lt_succ_self m)

theorem nodup_pair_triple (j b : ℕ) :
    (([(j, b), (j, b + 1), (j, b + 2)] : List (ℕ × ℕ))).Nodup := by
  simp [List.nodup_cons]

theorem mem_pair_triple_fst {j b : ℕ} {p : ℕ × ℕ}
    (hp : p ∈ ([(j, b), (j, b + 1), (j, b + 2)] : List (ℕ × ℕ))) : p.1 = j := by
  rcases (by simpa using hp : p = (j, b) ∨ p = (j, b + 1) ∨ p = (j, b + 2)) with h | h | h <;>
    (subst h; rfl)

theorem blockUpdPairs_mem (cfg : MCTConfig) (task i : ℕ) (p : ℕ × ℕ)
    (hp : p ∈ blockUpdPairs cfg task i) :
    newi cfg task i = true ∧ p.1 < cfg.ncomponents ∧
      ∃ c, c < 3 ∧ p.2 = 3 * cfg.ablocks i task + c := by
  unfold blockUpdPairs at hp
  by_cases h : newi cfg task i
  · rw [if_pos h] at hp
    rcases List.mem_flatMap.mp hp with ⟨j, hj, hp2⟩
    have hj' := List.mem_range.mp hj
    rcases (by simpa using hp2 : p = (j, 3 * cfg.ablocks i task) ∨
        p = (j, 3 * cfg.ablocks i task + 1) ∨ p = (j, 3 * cfg.ablocks i task + 2)) with
      h1 | h1 | h1 <;> subst h1
    · exact ⟨h, hj', 0, by omega, by simp⟩
    · exact ⟨h, hj', 1, by omega, rfl⟩
    · exact ⟨h, hj', 2, by omega, rfl⟩
  · rw [if_neg h] at hp
    exact absurd hp (List.not_mem_nil p)

theorem mem_blockUpdPairs (cfg : MCTConfig) (task i j c : ℕ)
    (hj : j < cfg.ncomponents) (hc : c < 3) (hn : newi cfg task i = true) :
    (j, 3 * cfg.ablocks i task + c) ∈ blockUpdPairs cfg task i := by
  unfold blockUpdPairs
  rw [if_pos hn]
  refine List.mem_flatMap.mpr ⟨j, List.mem_range.mpr hj, ?_⟩
  have h3 : c = 0 ∨ c = 1 ∨ c = 2 := by omega
  rcases h3 with rfl | rfl | rfl <;> simp

theorem atomUpdPairs_mem (cfg : MCTConfig) (task : ℕ) (p : ℕ × ℕ)
    (hp : p ∈ atomUpdPairs cfg task) :
    ∃ i, i < cfg.nblocks ∧ newi cfg task i = true ∧ p.1 < cfg.ncomponents ∧
      ∃ c, c < 3 ∧ p.2 = 3 * cfg.ablocks i task + c := by
  unfold atomUpdPairs at hp
  rcases List.mem_flatMap.mp hp with ⟨i, hi, hpi⟩
  obtain ⟨hn, hj, c, hc, he⟩ := blockUpdPairs_mem cfg task i p hpi
  exact ⟨i, List.mem_range.mp hi, hn, hj, c, hc, he⟩

theorem virialUpdPairs_mem (cfg : MCTConfig) (p : ℕ × ℕ) (hp : p ∈ virialUpdPairs cfg) :
    p.1 < cfg.ncomponents ∧ 3 * cfg.natoms ≤ p.2 ∧ p.2 < 3 * cfg.natoms + 9 := by
  unfold virialUpdPairs at hp
  rcases List.mem_flatMap.mp hp with ⟨j, hj, hp2⟩
  rcases List.mem_flatMap.mp hp2 with ⟨i, hi, hp3⟩
  rcases List.mem_flatMap.mp hp3 with ⟨k, hk, hp4⟩
  have hj' := List.mem_range.mp hj
  have hi' := List.mem_range.mp hi
  have hk' := List.mem_range.mp hk
  have hp5 : p = (j, 3 * cfg.natoms + 3 * i + k) := by simpa using hp4
  subst hp5
  refine ⟨hj', ?_, ?_⟩
  · show 3 * cfg.natoms ≤ 3 * cfg.natoms + 3 * i + k
    omega
  · show 3 * cfg.natoms + 3 * i + k < 3 * cfg.natoms + 9
    omega

theorem blockUpdPairs_nodup (cfg : MCTConfig) (task i : ℕ) :
    (blockUpdPairs cfg task i).Nodup := by
  unfold blockUpdPairs
  by_cases h : newi cfg task i
  · rw [if_pos h, List.nodup_flatMap]
    refine ⟨fun j _ => nodup_pair_triple j _, ?_⟩
    apply pairwise_range
    intro j1 j2 hlt _
    intro p hp1 hp2
    exact absurd ((mem_pair_triple_fst hp1).symm.trans (mem_pair_triple_fst hp2))
      (Nat.ne_of_lt hlt)
  · rw [if_neg h]
    exact List.nodup_nil

theorem atomUpdPairs_nodup (cfg : MCTConfig) (task : ℕ) :
    (atomUpdPairs cfg task).Nodup := by
  unfold atomUpdPairs
  rw [List.nodup_flatMap]
  refine ⟨fun i _ => blockUpdPairs_nodup cfg task i, ?_⟩
  apply pairwise_range
  intro i1 i2 h12 _
  intro p hp1 hp2
  obtain ⟨hn1, _, c1, hc1, he1⟩ := blockUpdPairs_mem cfg task i1 p hp1
  obtain ⟨hn2, _, c2, hc2, he2⟩ := blockUpdPairs_mem cfg task i2 p hp2
  have hne : cfg.ablocks i1 task ≠ cfg.ablocks i2 task := (newi_iff cfg task i2).mp hn2 i1 h12
  omega

theorem virialUpdPairs_nodup (cfg : MCTConfig) : (virialUpdPairs cfg).Nodup := by
  unfold virialUpdPairs
  rw [List.nodup_flatMap]
  constructor
  · intro j _
    rw [List.nodup_flatMap]
    constructor
    · intro i _
      rw [List.nodup_flatMap]
      refine ⟨fun k _ => List.nodup_singleton _, ?_⟩
      apply pairwise_range
      intro k1 k2 hk12 _
      intro p hp1 hp2
      have e1 := List.mem_singleton.mp hp1
      have e2 := List.mem_singleton.mp hp2
      rw [e1] at e2
      have h2 : 3 * cfg.natoms + 3 * i + k1 = 3 * cfg.natoms + 3 * i + k2 :=
        congrArg Prod.snd e2
      omega
    · apply pairwise_range
      intro i1 i2 h12 hi2
      intro p hp1 hp2
      rcases List.mem_flatMap.mp hp1 with ⟨k1, hk1, hpk1⟩
      rcases List.mem_flatMap.mp hp2 with ⟨k2, hk2, hpk2⟩
      have hk1' := List.mem_range.mp hk1
      have hk2' := List.mem_range.mp hk2
      have e1 : p.2 = 3 * cfg.natoms + 3 * i1 + k1 := by rw [List.mem_singleton.mp hpk1]
      have e2 : p.2 = 3 * cfg.natoms + 3 * i2 + k2 := by rw [List.mem_singleton.mp hpk2]
      omega
  · apply pairwise_range
    intro j1 j2 h12 _
    intro p hp1 hp2
    rcases List.mem_flatMap.mp hp1 with ⟨i1, _, hp1b⟩
    rcases List.mem_flatMap.mp hp1b with ⟨k1, _, hp1c⟩
    have e1 : p.1 = j1 := by rw [List.mem_singleton.mp hp1c]
    rcases List.mem_flatMap.mp hp2 with ⟨i2, _, hp2b⟩
    rcases List.mem_flatMap.mp hp2b with ⟨k2, _, hp2c⟩
    have e2 : p.1 = j2 := by rw [List.mem_singleton.mp hp2c]
    omega

theorem mctUpdPairs_nodup (cfg : MCTConfig) (task : ℕ)
    (hab : ∀ i, i < cfg.nblocks → cfg.ablocks i task < cfg.natoms) :
    (atomUpdPairs cfg task ++ virialUpdPairs cfg).Nodup := by
  rw [List.nodup_append]
  refine ⟨atomUpdPairs_nodup cfg task, virialUpdPairs_nodup cfg, ?_⟩
  intro p hp1 hp2
  obtain ⟨i, hi, _, _, c, hc, he⟩ := atomUpdPairs_mem cfg task p hp1
  obtain ⟨_, hge, _⟩ := virialUpdPairs_mem cfg p hp2
  have := hab i hi
  omega

theorem mctUpdPairs_bounds (cfg : MCTConfig) (task : ℕ)
    (hab : ∀ i, i < cfg.nblocks → cfg.ablocks i task < cfg.natoms) :
    ∀ p ∈ atomUpdPairs cfg task ++ virialUpdPairs cfg,
      p.1 < cfg.ncomponents ∧ p.2 < 3 * cfg.natoms + 9 := by
  intro p hp
  rcases List.mem_append.mp hp with h | h
  · obtain ⟨i, hi, _, hj, c, hc, he⟩ := atomUpdPairs_mem cfg task p h
    have := hab i hi
    exact ⟨hj, by omega⟩
  · obtain ⟨hj, _, hlt⟩ := virialUpdPairs_mem cfg p h
    exact ⟨hj, hlt⟩

/-- Every atom that occurs in some block occurs in a block whose `newi`
scan succeeds: its first occurrence. -/
theorem exists_first_block (cfg : MCTConfig) (task a : ℕ) :
    ∀ i, i < cfg.nblocks → cfg.ablocks i task = a →
      ∃ i2, i2 < cfg.nblocks ∧ cfg.ablocks i2 task = a ∧ newi cfg task i2 = true := by
  intro i
  induction i using Nat.strong_induction_on with
  | _ i ih =>
    intro hi ha
    by_cases h : newi cfg task i
    · exact ⟨i, hi, ha, h⟩
    · have h2 : ¬ ∀ j, j < i → cfg.ablocks j task ≠ cfg.ablocks i task := by
        intro hc
        exact h ((newi_iff cfg task i).mpr hc)
      push_neg at h2
      obtain ⟨j, hj, he⟩ := h2
      exact ih j hj (Nat.lt_trans hj hi) (he.trans ha)

theorem sum_map_eq_zero {α : Type} (l : List α) (f : α → ℚ) (h : ∀ a ∈ l, f a = 0) :
    (l.map f).sum = 0 := by
  induction l with
  | nil => rfl
  | cons a t ih =>
    rw [List.map_cons, List.sum_cons, h a (List.mem_cons_self a t),
      ih (fun b hb => h b (List.mem_cons_of_mem a hb)), add_zero]

theorem sum_map_flatMap {α β : Type} (l : List α) (g : α → List β) (f : β → ℚ) :
    ((l.flatMap g).map f).sum = (l.map (fun a => ((g a).map f).sum)).sum := by
  induction l with
  | nil => rfl
  | cons a t ih =>
    rw [List.flatMap_cons, List.map_append, List.sum_append, List.map_cons, List.sum_cons, ih]

theorem sum_map_range_single (n j : ℕ) (f : ℕ → ℚ) (hj : j < n)
    (h0 : ∀ k, k < n → k ≠ j → f k = 0) :
    ((List.range n).map f).sum = f j := by
  induction n with
  | zero => omega
  | succ m ih =>
    rw [List.range_succ, List.map_append, List.sum_append]
    by_cases hjm : j = m
    · have hz : ((List.range m).map f).sum = 0 := by
        apply sum_map_eq_zero
        intro k hk
        have hk' := List.mem_range.mp hk
        exact h0 k (Nat.lt_succ_of_lt hk') (by omega)
      rw [hz, hjm]
      simp
    · have hj' : j < m := by omega
      rw [ih hj' (fun k hk hkj => h0 k (Nat.lt_succ_of_lt hk) hkj)]
      have h2 : f m = 0 := h0 m (Nat.lt_succ_self m) (Ne.symm hjm)
      simp [h2]

theorem sum_map_ite_filter (l : List ℕ) (q : ℕ → Bool) (f : ℕ → ℚ) :
    (l.map (fun i => if q i then f i else 0)).sum = ((l.filter q).map f).sum := by
  induction l with
  | nil => rfl
  | cons a t ih =>
    rw [List.map_cons, List.sum_cons, List.filter_cons]
    by_cases h : q a
    · rw [if_pos h, if_pos h, List.map_cons, List.sum_cons, ih]
    · rw [if_neg h, if_neg h, ih, zero_add]

theorem virialOps_mem (cfg : MCTConfig) (virial : ℕ → ℕ → ℕ → ℚ) (op : MVOp)
    (hop : op ∈ virialOps cfg virial) :
    ∃ j i k, j < cfg.ncomponents ∧ i < 3 ∧ k < 3 ∧
      (op = MVOp.addDer j (3 * cfg.natoms + 3 * i + k) (virial j i k) ∨
       op = MVOp.updIdx j (3 * cfg.natoms + 3 * i + k)) := by
  unfold virialOps at hop
  rcases List.mem_flatMap.mp hop with ⟨j, hj, h2⟩
  rcases List.mem_flatMap.mp h2 with ⟨i, hi, h3⟩
  rcases List.mem_flatMap.mp h3 with ⟨k, hk, h4⟩
  refine ⟨j, i, k, List.mem_range.mp hj, List.mem_range.mp hi, List.mem_range.mp hk, ?_⟩
  simpa using h4

/-- The net contribution of one atom-loop iteration to the dense
derivative slot of component `j`, atomic coordinate `3*a+c`. -/
theorem blockOps_sum (cfg : MCTConfig) (task : ℕ) (derivs : ℕ → ℕ → ℕ → ℚ)
    (j a c i : ℕ) (hai : cfg.ablocks i task < cfg.natoms)
    (hj : j < cfg.ncomponents) (ha : a < cfg.natoms) (hc : c < 3) :
    ((blockOps cfg task derivs i).map
        (derContrib (3 * cfg.natoms + 9) ((3 * cfg.natoms + 9) * j + (3 * a + c)))).sum
      = if cfg.ablocks i task == a then derivs j i c else 0 := by
  unfold blockOps
  rw [List.map_append, List.sum_append]
  have hupd : (((if newi cfg task i then
      (List.range cfg.ncomponents).flatMap (fun j2 =>
        [MVOp.updIdx j2 (3 * cfg.ablocks i task),
         MVOp.updIdx j2 (3 * cfg.ablocks i task + 1),
         MVOp.updIdx j2 (3 * cfg.ablocks i task + 2)])
     else [])).map
        (derContrib (3 * cfg.natoms + 9) ((3 * cfg.natoms + 9) * j + (3 * a + c)))).sum = 0 := by
    apply sum_map_eq_zero
    intro op hop
    by_cases h : newi cfg task i
    · rw [if_pos h] at hop
      rcases List.mem_flatMap.mp hop with ⟨j2, _, h3⟩
      rcases (by simpa using h3 : op = MVOp.updIdx j2 (3 * cfg.ablocks i task) ∨
          op = MVOp.updIdx j2 (3 * cfg.ablocks i task + 1) ∨
          op = MVOp.updIdx j2 (3 * cfg.ablocks i task + 2)) with h4 | h4 | h4 <;>
        (subst h4; rfl)
    · rw [if_neg h] at hop
      exact absurd hop (List.not_mem_nil op)
  rw [hupd, add_zero, sum_map_flatMap]
  by_cases hae : cfg.ablocks i task = a
  · rw [if_pos (beq_iff_eq.mpr hae)]
    have hzero : ∀ k, k < cfg.ncomponents → k ≠ j →
        (fun j2 => (([MVOp.addDer j2 (3 * cfg.ablocks i task) (derivs j2 i 0),
            MVOp.addDer j2 (3 * cfg.ablocks i task + 1) (derivs j2 i 1),
            MVOp.addDer j2 (3 * cfg.ablocks i task + 2) (derivs j2 i 2)]).map
          (derContrib (3 * cfg.natoms + 9) ((3 * cfg.natoms + 9) * j + (3 * a + c)))).sum) k
          = 0 := by
      intro k hk hkj
      apply sum_map_eq_zero
      intro op hop
      rcases (by simpa using hop : op = MVOp.addDer k (3 * cfg.ablocks i task) (derivs k i 0) ∨
          op = MVOp.addDer k (3 * cfg.ablocks i task + 1) (derivs k i 1) ∨
          op = MVOp.addDer k (3 * cfg.ablocks i task + 2) (derivs k i 2)) with h4 | h4 | h4 <;>
        subst h4 <;>
        · simp only [derContrib]
          split
          next hcnd => exact absurd (mulAdd_left_cancel (by omega) (by omega) hcnd).1 hkj
          next hcnd => rfl
    rw [sum_map_range_single cfg.ncomponents j _ hj hzero]
    subst hae
    have h3 : c = 0 ∨ c = 1 ∨ c = 2 := by omega
    rcases h3 with rfl | rfl | rfl
    · simp only [List.map_cons, List.map_nil, List.sum_cons, List.sum_nil, derContrib]
      have e1 : (3 * cfg.natoms + 9) * j + 3 * cfg.ablocks i task
          = (3 * cfg.natoms + 9) * j + (3 * cfg.ablocks i task + 0) := by
        ring
      have e2 : ¬((3 * cfg.natoms + 9) * j + (3 * cfg.ablocks i task + 1)
          = (3 * cfg.natoms + 9) * j + (3 * cfg.ablocks i task + 0)) :=
        fun h => absurd (Nat.add_left_cancel h) (by omega)
      have e3 : ¬((3 * cfg.natoms + 9) * j + (3 * cfg.ablocks i task + 2)
          = (3 * cfg.natoms + 9) * j + (3 * cfg.ablocks i task + 0)) :=
        fun h => absurd (Nat.add_left_cancel h) (by omega)
      rw [if_pos e1, if_neg e2, if_neg e3]
      ring
    · simp only [List.map_cons, List.map_nil, List.sum_cons, List.sum_nil, derContrib]
      have e1 : ¬((3 * cfg.natoms + 9) * j + 3 * cfg.ablocks i task
          = (3 * cfg.natoms + 9) * j + (3 * cfg.ablocks i task + 1)) :=
        fun h => absurd (Nat.add_left_cancel h) (by omega)
      have e3 : ¬((3 * cfg.natoms + 9) * j + (3 * cfg.ablocks i task + 2)
          = (3 * cfg.natoms + 9) * j + (3 * cfg.ablocks i task + 1)) :=
        fun h => absurd (Nat.add_left_cancel h) (by omega)
      rw [if_neg e1, if_neg e3]
      simp
    · simp only [List.map_cons, List.map_nil, List.sum_cons, List.sum_nil, derContrib]
      have e1 : ¬((3 * cfg.natoms + 9) * j + 3 * cfg.ablocks i task
          = (3 * cfg.natoms + 9) * j + (3 * cfg.ablocks i task + 2)) :=
        fun h => absurd (Nat.add_left_cancel h) (by omega)
      have e2 : ¬((3 * cfg.natoms + 9) * j + (3 * cfg.ablocks i task + 1)
          = (3 * cfg.natoms + 9) * j + (3 * cfg.ablocks i task + 2)) :=
        fun h => absurd (Nat.add_left_cancel h) (by omega)
      rw [if_neg e1, if_neg e2]
      simp
  · rw [if_neg (by simpa using hae)]
    apply sum_map_eq_zero
    intro j2 hj2
    apply sum_map_eq_zero
    intro op hop
    rcases (by simpa using hop : op = MVOp.addDer j2 (3 * cfg.ablocks i task) (derivs j2 i 0) ∨
        op = MVOp.addDer j2 (3 * cfg.ablocks i task + 1) (derivs j2 i 1) ∨
        op = MVOp.addDer j2 (3 * cfg.ablocks i task + 2) (derivs j2 i 2)) with h4 | h4 | h4 <;>
      subst h4 <;>
      · simp only [derContrib]
        split
        next hcnd =>
          have h5 := (mulAdd_left_cancel (by omega) (by omega) hcnd).2
          exact absurd (by omega : cfg.ablocks i task = a) hae
        next hcnd => rfl

/-- The dense derivative slot of component `j`, atomic coordinate
`3*a+c` receives exactly the sum of the `derivs` entries of the blocks
holding atom `a`. -/
theorem performTaskOps_derivative_sum (cfg : MCTConfig) (task : ℕ) (values : List ℚ)
    (derivs virial : ℕ → ℕ → ℕ → ℚ) (j a c : ℕ)
    (hab : ∀ i, i < cfg.nblocks → cfg.ablocks i task < cfg.natoms)
    (hj : j < cfg.ncomponents) (ha : a < cfg.natoms) (hc : c < 3) :
    ((performTaskOps cfg task values derivs virial false).map
        (derContrib (3 * cfg.natoms + 9) ((3 * cfg.natoms + 9) * j + (3 * a + c)))).sum
      = (((List.range cfg.nblocks).filter (fun i => cfg.ablocks i task == a)).map
          (fun i => derivs j i c)).sum := by
  unfold performTaskOps
  rw [if_neg Bool.false_ne_true, List.map_append, List.sum_append, List.map_append,
    List.sum_append]
  have hsv : (((List.range values.length).map (fun i => MVOp.setVal i (values.getD i 0))).map
      (derContrib (3 * cfg.natoms + 9) ((3 * cfg.natoms + 9) * j + (3 * a + c)))).sum = 0 := by
    apply sum_map_eq_zero
    intro op hop
    rcases List.mem_map.mp hop with ⟨i, _, rfl⟩
    rfl
  have hvir : ((virialOps cfg virial).map
      (derContrib (3 * cfg.natoms + 9) ((3 * cfg.natoms + 9) * j + (3 * a + c)))).sum = 0 := by
    apply sum_map_eq_zero
    intro op hop
    obtain ⟨j2, i, k, hj2, hi, hk, hcase⟩ := virialOps_mem cfg virial op hop
    rcases hcase with h | h <;> subst h
    · simp only [derContrib]
      split
      next hcnd =>
        have h5 := (mulAdd_left_cancel (by omega) (by omega) hcnd).2
        omega
      next hcnd => rfl
    · rfl
  have hatm : ((atomOps cfg task derivs).map
      (derContrib (3 * cfg.natoms + 9) ((3 * cfg.natoms + 9) * j + (3 * a + c)))).sum
      = (((List.range cfg.nblocks).filter (fun i => cfg.ablocks i task == a)).map
          (fun i => derivs j i c)).sum := by
    unfold atomOps
    rw [sum_map_flatMap]
    have hcong : (List.range cfg.nblocks).map (fun i => ((blockOps cfg task derivs i).map
          (derContrib (3 * cfg.natoms + 9) ((3 * cfg.natoms + 9) * j + (3 * a + c)))).sum)
        = (List.range cfg.nblocks).map
            (fun i => if cfg.ablocks i task == a then derivs j i c else 0) := by
      apply List.map_congr_left
      intro i hi
      exact blockOps_sum cfg task derivs j a c i (hab i (List.mem_range.mp hi)) hj ha hc
    rw [hcong, sum_map_ite_filter]
  rw [hsv, hvir, hatm]
  ring

theorem applyOps_nderivatives (mv : MultiValue) (ops : List MVOp) :
    (applyOps mv ops).nderivatives = mv.nderivatives := by
  induction ops generalizing mv with
  | nil => rfl
  | cons op rest ih =>
    rw [applyOps_cons, ih (applyOp mv op)]
    cases op with
    | setVal i x => rfl
    | addDer i j d => rfl
    | updIdx i j => exact updateIndex_nderivatives mv i j

theorem getD_replicate {α : Type} (x d : α) (n i : ℕ) :
    (List.replicate n x).getD i d = if i < n then x else d := by
  rw [List.getD_eq_getElem?_getD, List.getElem?_replicate]
  by_cases h : i < n
  · simp [h]
  · simp [h]

end MultiColvarTemplate

/-- **C10.**  In `MultiColvarTemplate<CV>::performTask`, when the same
atom occupies several atom-block positions of a task, every occurrence's
`derivs` entry is accumulated by `addDerivative`, but `updateIndex` is
called for the atom's three position-derivative slots only once, at the
first occurrence (the `newi` scan): on a freshly resized context, every
component's active-derivative list ends up duplicate-free; the
`updateIndex` pair `(j, 3*a+c)` is issued at most once, and is issued
iff atom `a` occurs in some block; `newi` holds exactly at first
occurrences; and the dense derivative slot `(j, 3*a+c)` holds the sum of
the `derivs` contributions of *all* occurrences of atom `a`. -/
theorem C10_atom_dedup (cfg : MultiColvarTemplate.MCTConfig) (task : ℕ) (values : List ℚ)
    (derivs virial : ℕ → ℕ → ℕ → ℚ)
    (hab : ∀ i, i < cfg.nblocks → cfg.ablocks i task < cfg.natoms) :
    (∀ v, ((MultiColvarTemplate.performTask cfg task values derivs virial false
        (MultiValue.resized cfg.ncomponents (3 * cfg.natoms + 9) 0 0)).activeList v).Nodup) ∧
    ((updPairs (MultiColvarTemplate.performTaskOps cfg task values derivs virial
        false)).Nodup) ∧
    (∀ j a c, j < cfg.ncomponents → a < cfg.natoms → c < 3 →
      ((j, 3 * a + c) ∈ updPairs (MultiColvarTemplate.performTaskOps cfg task values derivs
          virial false) ↔
        ∃ i, i < cfg.nblocks ∧ cfg.ablocks i task = a)) ∧
    (∀ i, MultiColvarTemplate.newi cfg task i = true ↔
      ∀ j2, j2 < i → cfg.ablocks j2 task ≠ cfg.ablocks i task) ∧
    (∀ j a c, j < cfg.ncomponents → a < cfg.natoms → c < 3 →
      (MultiColvarTemplate.performTask cfg task values derivs virial false
          (MultiValue.resized cfg.ncomponents (3 * cfg.natoms + 9) 0 0)).getDerivative j
            (3 * a + c)
        = (((List.range cfg.nblocks).filter (fun i => cfg.ablocks i task == a)).map
            (fun i => derivs j i c)).sum) := by
  have hpairs := MultiColvarTemplate.updPairs_performTaskOps cfg task values derivs virial
  have hnodup := MultiColvarTemplate.mctUpdPairs_nodup cfg task hab
  have hbounds := MultiColvarTemplate.mctUpdPairs_bounds cfg task hab
  refine ⟨?_, ?_, ?_, fun i => MultiColvarTemplate.newi_iff cfg task i, ?_⟩
  · have hrun := @MVInv.run cfg.ncomponents (3 * cfg.natoms + 9)
      (MultiColvarTemplate.performTaskOps cfg task values derivs virial false) []
      (MultiValue.resized cfg.ncomponents (3 * cfg.natoms + 9) 0 0)
      (MVInv_resized cfg.ncomponents (3 * cfg.natoms + 9) 0 0)
      (by
        intro p hp
        rw [List.nil_append, hpairs] at hp
        exact hbounds p hp)
      (by rw [List.nil_append, hpairs]; exact hnodup)
    rw [List.nil_append] at hrun
    intro v
    have hnd2 : (updPairs (MultiColvarTemplate.performTaskOps cfg task values derivs virial
        false)).Nodup := by
      rw [hpairs]; exact hnodup
    exact (updFor_nodup hnd2 v).sublist (hrun.hsub v)
  · rw [hpairs]
    exact hnodup
  · intro j a c hj ha hc
    rw [hpairs]
    constructor
    · intro hm
      rcases List.mem_append.mp hm with h | h
      · obtain ⟨i, hi, hn, _, c2, hc2, he⟩ :=
          MultiColvarTemplate.atomUpdPairs_mem cfg task (j, 3 * a + c) h
        refine ⟨i, hi, ?_⟩
        have h2 : 3 * a + c = 3 * cfg.ablocks i task + c2 := he
        omega
      · obtain ⟨_, hge, _⟩ := MultiColvarTemplate.virialUpdPairs_mem cfg (j, 3 * a + c) h
        exfalso
        have h2 : 3 * cfg.natoms ≤ 3 * a + c := hge
        omega
    · rintro ⟨i, hi, ha2⟩
      obtain ⟨i2, hi2, ha3, hn⟩ :=
        MultiColvarTemplate.exists_first_block cfg task a i hi ha2
      refine List.mem_append.mpr (Or.inl ?_)
      unfold MultiColvarTemplate.atomUpdPairs
      refine List.mem_flatMap.mpr ⟨i2, List.mem_range.mpr hi2, ?_⟩
      rw [← ha3]
      exact MultiColvarTemplate.mem_blockUpdPairs cfg task i2 j c hj hc hn
  · intro j a c hj ha hc
    have hplen : (3 * cfg.natoms + 9) * j + (3 * a + c)
        < (MultiValue.resized cfg.ncomponents (3 * cfg.natoms + 9) 0 0).derivatives.length := by
      show (3 * cfg.natoms + 9) * j + (3 * a + c)
        < (List.replicate (cfg.ncomponents * (3 * cfg.natoms + 9)) (0 : ℚ)).length
      rw [List.length_replicate]
      have h1 : 3 * a + c < 3 * cfg.natoms + 9 := by omega
      have h2 : (3 * cfg.natoms + 9) * (j + 1) ≤ (3 * cfg.natoms + 9) * cfg.ncomponents :=
        Nat.mul_le_mul_left (3 * cfg.natoms + 9) hj
      have h3 : (3 * cfg.natoms + 9) * (j + 1)
          = (3 * cfg.natoms + 9) * j + (3 * cfg.natoms + 9) := Nat.mul_succ _ _
      have h4 : cfg.ncomponents * (3 * cfg.natoms + 9)
          = (3 * cfg.natoms + 9) * cfg.ncomponents := Nat.mul_comm _ _
      omega
    have hgetD := applyOps_derivatives_getD
      (MultiColvarTemplate.performTaskOps cfg task values derivs virial false)
      (MultiValue.resized cfg.ncomponents (3 * cfg.natoms + 9) 0 0)
      ((3 * cfg.natoms + 9) * j + (3 * a + c)) hplen
    have hnd0 : (MultiValue.resized cfg.ncomponents (3 * cfg.natoms + 9) 0 0).nderivatives
        = 3 * cfg.natoms + 9 := rfl
    have h0 : (MultiValue.resized cfg.ncomponents (3 * cfg.natoms + 9) 0 0).derivatives.getD
        ((3 * cfg.natoms + 9) * j + (3 * a + c)) 0 = 0 := by
      show (List.replicate (cfg.ncomponents * (3 * cfg.natoms + 9)) (0 : ℚ)).getD
        ((3 * cfg.natoms + 9) * j + (3 * a + c)) 0 = 0
      rw [MultiColvarTemplate.getD_replicate]
      split <;> rfl
    show (applyOps (MultiValue.resized cfg.ncomponents (3 * cfg.natoms + 9) 0 0)
        (MultiColvarTemplate.performTaskOps cfg task values derivs virial
          false)).derivatives.getD
      ((applyOps (MultiValue.resized cfg.ncomponents (3 * cfg.natoms + 9) 0 0)
          (MultiColvarTemplate.performTaskOps cfg task values derivs virial
            false)).nderivatives * j + (3 * a + c)) 0
      = (((List.range cfg.nblocks).filter (fun i => cfg.ablocks i task == a)).map
          (fun i => derivs j i c)).sum
    rw [MultiColvarTemplate.applyOps_nderivatives, hnd0, hgetD, h0, zero_add, hnd0]
    exact MultiColvarTemplate.performTaskOps_derivative_sum cfg task values derivs virial
      j a c hab hj ha hc

/-- A two-block task in which both blocks hold atom 0, so the second
block fails the `newi` scan. -/
def cfgC10 : MultiColvarTemplate.MCTConfig :=
  { nblocks := 2, ablocks := fun _ _ => 0, natoms := 1, ncomponents := 1 }

/-- Witness for C10: the two blocks of the concrete configuration hold
the same atom, the atom-bound hypothesis holds, and the theorem's
conclusions follow at this instance. -/
theorem C10_atom_dedup_witness :
    (cfgC10.ablocks 0 0 = cfgC10.ablocks 1 0) ∧
    (∀ i, i < cfgC10.nblocks → cfgC10.ablocks i 0 < cfgC10.natoms) ∧
    ((∀ v, ((MultiColvarTemplate.performTask cfgC10 0 [5] (fun _ _ _ => 1) (fun _ _ _ => 0) false
        (MultiValue.resized cfgC10.ncomponents (3 * cfgC10.natoms + 9) 0 0)).activeList v).Nodup) ∧
     ((updPairs (MultiColvarTemplate.performTaskOps cfgC10 0 [5] (fun _ _ _ => 1) (fun _ _ _ => 0)
        false)).Nodup) ∧
     (∀ j a c, j < cfgC10.ncomponents → a < cfgC10.natoms → c < 3 →
       ((j, 3 * a + c) ∈ updPairs (MultiColvarTemplate.performTaskOps cfgC10 0 [5]
           (fun _ _ _ => 1) (fun _ _ _ => 0) false) ↔
         ∃ i, i < cfgC10.nblocks ∧ cfgC10.ablocks i 0 = a)) ∧
     (∀ i, MultiColvarTemplate.newi cfgC10 0 i = true ↔
       ∀ j2, j2 < i → cfgC10.ablocks j2 0 ≠ cfgC10.ablocks i 0) ∧
     (∀ j a c, j < cfgC10.ncomponents → a < cfgC10.natoms → c < 3 →
       (MultiColvarTemplate.performTask cfgC10 0 [5] (fun _ _ _ => 1) (fun _ _ _ => 0) false
           (MultiValue.resized cfgC10.ncomponents (3 * cfgC10.natoms + 9) 0 0)).getDerivative j
             (3 * a + c)
         = (((List.range cfgC10.nblocks).filter (fun i => cfgC10.ablocks i 0 == a)).map
             (fun _ => (1 : ℚ))).sum)) :=
  ⟨rfl, fun _ _ => Nat.zero_lt_one,
    C10_atom_dedup cfgC10 0 [5] (fun _ _ _ => 1) (fun _ _ _ => 0) (fun _ _ => Nat.zero_lt_one)⟩

end Plumed

